import Mathlib

/-!
Verification of the CHE binary codec (web-app/js/che-parser.js,
web-app/lib/encoding.js, web-app/js/table-viewer.js).

Byte buffers are modelled two ways, matching how the JavaScript uses them:
`ByteArr` is a sized read-only view (a `Uint8Array` argument), and `Buf` is
an unbounded byte function used for the output buffer being written; every
write reduces the stored value mod 256 exactly as a `Uint8Array` store does.
JavaScript strings are modelled as lists of UTF-16 code units.
-/

set_option maxRecDepth 100000

/-- Sized read-only byte view (a `Uint8Array` handed to the parser). -/
structure ByteArr where
  size : Nat
  get : Nat → Nat

/-- Output byte buffer: byte value at each offset. -/
def Buf : Type := Nat → Nat

/-- Store one byte, truncating mod 256 (`Uint8Array` store semantics). -/
def wr (b : Buf) (o v : Nat) : Buf := fun x => if x = o then v % 256 else b x

/-- Little-endian unsigned 32-bit read from the output buffer
(`DataView.getUint32(o, true)`). -/
def getUint32 (b : Buf) (o : Nat) : Nat :=
  b o + 256 * b (o + 1) + 65536 * b (o + 2) + 16777216 * b (o + 3)

/-- Little-endian 32-bit write to the output buffer
(`DataView.setUint32(o, v, true)`). -/
def wr32 (b : Buf) (o v : Nat) : Buf :=
  wr (wr (wr (wr b o v) (o + 1) (v / 256)) (o + 2) (v / 65536)) (o + 3) (v / 16777216)

/-- Copy `n` bytes of `src` starting at `so` to the output at `dst`,
stopping early when the source is exhausted (the generator's copy loops all
guard on `srcOff + k < src.byteLength`). -/
def cpy (b : Buf) (dst : Nat) (src : ByteArr) (so : Nat) : Nat → Buf
  | 0 => b
  | n + 1 => if so < src.size then cpy (wr b dst (src.get so)) (dst + 1) src (so + 1) n else b

/-- Zero-fill `n` bytes starting at `o`. -/
def zeroRange (b : Buf) (o : Nat) : Nat → Buf
  | 0 => b
  | n + 1 => zeroRange (wr b o 0) (o + 1) n

/-- Write the bytes of a list consecutively starting at `o`. -/
def writeList (b : Buf) (o : Nat) : List Nat → Buf
  | [] => b
  | v :: rest => writeList (wr b o v) (o + 1) rest

/-- `bytes.slice(s, e)` on a typed array with non-negative indices. -/
def baSlice (b : ByteArr) (s e : Nat) : ByteArr :=
  ⟨min e b.size - min s b.size, fun i => b.get (min s b.size + i)⟩

/-- `buffer.slice(s, e)` with JavaScript relative-index semantics
(negative indices count from the end, everything clamped). -/
def baSliceI (b : ByteArr) (s e : Int) : ByteArr :=
  let sz : Int := b.size
  let s1 : Int := if s < 0 then max (sz + s) 0 else min s sz
  let e1 : Int := if e < 0 then max (sz + e) 0 else min e sz
  ⟨(e1 - s1).toNat, fun i => b.get (s1.toNat + i)⟩

/-- The byte contents of a sized view, as a list. -/
def baToList (b : ByteArr) : List Nat := (List.range b.size).map b.get

/-- Little-endian 32-bit value of four bytes of a read-only view (used to
state what a raw fragment holds at a block-reference entry). -/
def rd32BA (r : ByteArr) (o : Nat) : Nat :=
  r.get o + 256 * r.get (o + 1) + 65536 * r.get (o + 2) + 16777216 * r.get (o + 3)

/-! ## Encoding.js — the legacy double-byte text codec -/

/-- JIS row/cell to Unicode, `Encoding.jisToUnicode`: hiragana (row 4),
katakana (row 5) and full-width symbols (row 3) are algebraic; everything
else is unmapped. -/
def jisToUnicode (row cell : Nat) : Option Nat :=
  if row = 4 ∧ 1 ≤ cell ∧ cell ≤ 83 then some (0x3040 + cell - 1)
  else if row = 5 ∧ 1 ≤ cell ∧ cell ≤ 86 then some (0x30A0 + cell - 1)
  else if row = 3 ∧ 1 ≤ cell ∧ cell ≤ 94 then some (0xFF01 + cell - 1)
  else none

/-- Low-byte part of `Encoding.sjisToUnicode`: map the low byte to a cell
(possibly bumping the row) and look the pair up. -/
def sjisLoPart (row lo : Nat) : Option Nat :=
  if 0x40 ≤ lo ∧ lo ≤ 0x7E then jisToUnicode row (lo - 0x40 + 1)
  else if 0x80 ≤ lo ∧ lo ≤ 0x9E then jisToUnicode row (lo - 0x80 + 64)
  else if 0x9F ≤ lo ∧ lo ≤ 0xFC then jisToUnicode (row + 1) (lo - 0x9F + 1)
  else none

/-- `Encoding.sjisToUnicode`: split a double-byte code into row/cell and
resolve it through the partial table. -/
def sjisToUnicode (sjis : Nat) : Option Nat :=
  let hi := sjis / 256 % 256
  let lo := sjis % 256
  if 0x81 ≤ hi ∧ hi ≤ 0x9F then sjisLoPart ((hi - 0x81) * 2 + 1) lo
  else if 0xE0 ≤ hi ∧ hi ≤ 0xEF then sjisLoPart ((hi - 0xE0) * 2 + 63) lo
  else none

/-- `Encoding.toUTF8` (the in-repo decoder): a zero byte terminates, ASCII
maps to itself, half-width kana by a linear offset, anything else starts a
double-byte pair resolved through `sjisToUnicode` or the substitution
character `?` (63). -/
def toUTF8 : List Nat → List Nat
  | [] => []
  | b1 :: rest =>
    if b1 = 0 then []
    else if b1 ≤ 0x7F then b1 :: toUTF8 rest
    else if 0xA1 ≤ b1 ∧ b1 ≤ 0xDF then (0xFF61 + (b1 - 0xA1)) :: toUTF8 rest
    else
      match rest with
      | [] => []
      | b2 :: rest2 =>
        match sjisToUnicode (b1 * 256 + b2) with
        | some u => u :: toUTF8 rest2
        | none => 63 :: toUTF8 rest2

/-- JIS row/cell to Shift-JIS code, `Encoding.jisToSjis`. -/
def jisToSjis (row cell : Nat) : Nat :=
  let hi := if row ≤ 62 then (row + 1) / 2 + 0x80 else (row - 63) / 2 + 0xE0
  let lo :=
    if row % 2 = 1 then (if cell ≤ 63 then cell + 0x3F else cell + 0x40)
    else cell + 0x9E
  hi * 256 + lo

/-- `Encoding.hiraganaToSjis`. -/
def hiraganaToSjis (u : Nat) : Nat := jisToSjis 4 (u - 0x3040 + 1)

/-- `Encoding.katakanaToSjis`. -/
def katakanaToSjis (u : Nat) : Nat := jisToSjis 5 (u - 0x30A0 + 1)

/-- `Encoding.fullwidthToSjis`. -/
def fullwidthToSjis (u : Nat) : Nat := jisToSjis 3 (u - 0xFF01 + 1)

/-- The curated ideograph table (`commonKanji` in encoding.js): Unicode code
point paired with its Shift-JIS code. -/
def commonKanji : List (Nat × Nat) := [
  (Char.toNat '新', 0x9056), (Char.toNat '規', 0x8B4B), (Char.toNat '大', 0x91E5), (Char.toNat '会', 0x89EF),
  (Char.toNat '小', 0x8FAC), (Char.toNat '中', 0x9286), (Char.toNat '高', 0x8D82), (Char.toNat '低', 0x92E1),
  (Char.toNat '上', 0x8FE3), (Char.toNat '下', 0x89BA), (Char.toNat '左', 0x8DB6), (Char.toNat '右', 0x8945),
  (Char.toNat '前', 0x914F), (Char.toNat '後', 0x8CE3), (Char.toNat '内', 0x93E0), (Char.toNat '外', 0x8A4F),
  (Char.toNat '開', 0x8A4A), (Char.toNat '閉', 0x95C2), (Char.toNat '始', 0x8E6E), (Char.toNat '終', 0x8F49),
  (Char.toNat '勝', 0x8F9F), (Char.toNat '敗', 0x9473), (Char.toNat '引', 0x88F8), (Char.toNat '分', 0x95AA),
  (Char.toNat '戦', 0x90ED), (Char.toNat '対', 0x91CE), (Char.toNat '試', 0x8E8E), (Char.toNat '合', 0x8D87),
  (Char.toNat '点', 0x935F), (Char.toNat '得', 0x93BE), (Char.toNat '失', 0x8EB8), (Char.toNat '順', 0x8F87),
  (Char.toNat '位', 0x88CA), (Char.toNat '番', 0x94D4), (Char.toNat '号', 0x8D86), (Char.toNat '回', 0x89F1),
  (Char.toNat '目', 0x96DA), (Char.toNat '日', 0x93FA), (Char.toNat '月', 0x8C8E), (Char.toNat '年', 0x944E),
  (Char.toNat '時', 0x8E9E), (Char.toNat '間', 0x8AD4), (Char.toNat '場', 0x8FEA), (Char.toNat '所', 0x8F8A),
  (Char.toNat '名', 0x96BC), (Char.toNat '人', 0x906C), (Char.toNat '者', 0x8ED2), (Char.toNat '員', 0x88F5),
  (Char.toNat '本', 0x967B), (Char.toNat '数', 0x9094), (Char.toNat '全', 0x9153), (Char.toNat '部', 0x9594),
  (Char.toNat '正', 0x90B3), (Char.toNat '逆', 0x8B74), (Char.toNat '表', 0x955C), (Char.toNat '裏', 0x97A0),
  (Char.toNat '結', 0x8C8B), (Char.toNat '果', 0x89CA), (Char.toNat '集', 0x8F57), (Char.toNat '計', 0x8C76),
  (Char.toNat '登', 0x936F), (Char.toNat '録', 0x985E), (Char.toNat '削', 0x8DED), (Char.toNat '除', 0x8F9C),
  (Char.toNat '追', 0x92C7), (Char.toNat '加', 0x89C1), (Char.toNat '変', 0x95CF), (Char.toNat '更', 0x8D58),
  (Char.toNat '保', 0x95DB), (Char.toNat '存', 0x91B6), (Char.toNat '読', 0x93C7), (Char.toNat '込', 0x8D9E),
  (Char.toNat '出', 0x8F6F), (Char.toNat '力', 0x97CD), (Char.toNat '入', 0x93FC), (Char.toNat '編', 0x95D2),
  (Char.toNat '成', 0x90AC), (Char.toNat '作', 0x8DEC), (Char.toNat '動', 0x93AE), (Char.toNat '止', 0x8E7E),
  (Char.toNat '使', 0x8E67), (Char.toNat '用', 0x9770), (Char.toNat '選', 0x9149), (Char.toNat '択', 0x91F0),
  (Char.toNat '決', 0x8C88), (Char.toNat '定', 0x92E8), (Char.toNat '確', 0x8A6D), (Char.toNat '認', 0x9446),
  (Char.toNat '送', 0x9197), (Char.toNat '信', 0x904D), (Char.toNat '受', 0x8EF3), (Char.toNat '取', 0x8EE6),
  (Char.toNat '最', 0x8DC5), (Char.toNat '初', 0x8F89), (Char.toNat '了', 0x97B9),
  (Char.toNat '完', 0x8AAE), (Char.toNat '功', 0x8CF7),
  (Char.toNat '機', 0x8B40), (Char.toNat '体', 0x91CC), (Char.toNat '兵', 0x95BA), (Char.toNat '器', 0x8AED),
  (Char.toNat '武', 0x9590), (Char.toNat '装', 0x9195), (Char.toNat '型', 0x8C5E), (Char.toNat '式', 0x8EB0),
  (Char.toNat '能', 0x945C), (Char.toNat '性', 0x90AB), (Char.toNat '攻', 0x8D55), (Char.toNat '撃', 0x8C82),
  (Char.toNat '防', 0x9668), (Char.toNat '御', 0x8CE4), (Char.toNat '速', 0x91AC), (Char.toNat '度', 0x9378),
  (Char.toNat '量', 0x97CA), (Char.toNat '重', 0x8F64), (Char.toNat '軽', 0x8C79), (Char.toNat '強', 0x8BAD),
  (Char.toNat '弱', 0x8EE3), (Char.toNat '硬', 0x8D64), (Char.toNat '柔', 0x8F5F), (Char.toNat '鋭', 0x8973),
  (Char.toNat '鈍', 0x9383), (Char.toNat '熱', 0x944D), (Char.toNat '冷', 0x97E2), (Char.toNat '電', 0x9364),
  (Char.toNat '磁', 0x8EA5), (Char.toNat '光', 0x8CF5), (Char.toNat '音', 0x89B9), (Char.toNat '波', 0x9467),
  (Char.toNat '砲', 0x9643), (Char.toNat '弾', 0x9265), (Char.toNat '銃', 0x8F65), (Char.toNat '剣', 0x8C95),
  (Char.toNat '刃', 0x906E), (Char.toNat '盾', 0x8F82), (Char.toNat '甲', 0x8D62), (Char.toNat '殻', 0x8A6B)]

/-- Lookup in the curated ideograph table (`UNICODE_TO_SJIS_MAP`). -/
def kanjiLookup (c : Nat) : Option Nat :=
  (commonKanji.find? (fun p => p.1 = c)).map (fun p => p.2)

/-- `Encoding.toSJIS` (the table-augmented version installed by the IIFE):
ASCII and half-width kana direct, curated ideographs by table, hiragana /
katakana / full-width ranges by row-cell algebra, everything else the
substitution byte `0x3F`. -/
def toSJIS : List Nat → List Nat
  | [] => []
  | c :: rest =>
    (if c ≤ 0x7F then [c]
     else if 0xFF61 ≤ c ∧ c ≤ 0xFF9F then [0xA1 + (c - 0xFF61)]
     else
       match kanjiLookup c with
       | some s => [s / 256 % 256, s % 256]
       | none =>
         if 0x3041 ≤ c ∧ c ≤ 0x3093 then [hiraganaToSjis c / 256 % 256, hiraganaToSjis c % 256]
         else if 0x30A1 ≤ c ∧ c ≤ 0x30F6 then [katakanaToSjis c / 256 % 256, katakanaToSjis c % 256]
         else if 0xFF01 ≤ c ∧ c ≤ 0xFF5E then [fullwidthToSjis c / 256 % 256, fullwidthToSjis c % 256]
         else [0x3F]) ++ toSJIS rest

/-! ## CHEParser string / integer helpers -/

/-- The JavaScript `String.prototype.trim` whitespace set. -/
def jsWsB (c : Nat) : Bool :=
  decide (c = 32 ∨ (9 ≤ c ∧ c ≤ 13) ∨ c = 0xA0 ∨ c = 0x1680 ∨ (0x2000 ≤ c ∧ c ≤ 0x200A) ∨
    c = 0x2028 ∨ c = 0x2029 ∨ c = 0x202F ∨ c = 0x205F ∨ c = 0x3000 ∨ c = 0xFEFF)

/-- `str.trim()`: drop leading and trailing JavaScript whitespace. -/
def jsTrim (l : List Nat) : List Nat :=
  ((l.dropWhile jsWsB).reverse.dropWhile jsWsB).reverse

/-- A JavaScript line terminator (what `.` does not match in a regex). -/
def lineTermB (c : Nat) : Bool := decide (c = 10 ∨ c = 13 ∨ c = 0x2028 ∨ c = 0x2029)

/-- `str.replace(/\0.*$/, '')`: cut from the leftmost NUL whose suffix
contains no line terminator (otherwise the regex cannot reach `$`). -/
def nulCut : List Nat → List Nat
  | [] => []
  | c :: rest =>
    if c = 0 ∧ rest.all (fun d => !lineTermB d) then []
    else c :: nulCut rest

/-- `CHEParser.readString`: concatenate the in-range non-zero bytes. -/
def readString (b : ByteArr) (o len : Nat) : List Nat :=
  (List.range len).filterMap
    (fun i => if o + i < b.size ∧ b.get (o + i) ≠ 0 then some (b.get (o + i)) else none)

/-- `CHEParser.readUint16` (little-endian, 0 when out of range). -/
def readUint16 (b : ByteArr) (o : Nat) : Nat :=
  if o + 2 > b.size then 0 else b.get o % 256 + 256 * (b.get (o + 1) % 256)

/-- `CHEParser.readUint32`: little-endian read built from `|`, which in
JavaScript yields a signed 32-bit result. -/
def readUint32 (b : ByteArr) (o : Nat) : Int :=
  if o + 4 > b.size then 0
  else
    let u := b.get o % 256 + 256 * (b.get (o + 1) % 256) + 65536 * (b.get (o + 2) % 256) +
      16777216 * (b.get (o + 3) % 256)
    if u < 2147483648 then (u : Int) else (u : Int) - 4294967296

/-- The leading-padding skip loop of `readSJISString`: advance `start` over
`0x00` / `0xFF` bytes while inside the field and the buffer. The fuel is the
field length, which bounds the number of steps the loop can take. -/
def skipPad (b : ByteArr) (stop : Nat) : Nat → Nat → Nat
  | 0, start => start
  | f + 1, start =>
    if start < stop ∧ start < b.size ∧ (b.get start = 0 ∨ b.get start = 0xFF) then
      skipPad b stop f (start + 1)
    else start

/-- `CHEParser.readSJISString`: skip leading NUL/0xFF padding, decode the
rest of the field, trim, and apply the NUL-tail replacement. -/
def readSJISString (b : ByteArr) (offset len : Nat) : List Nat :=
  if offset ≥ b.size then []
  else
    let start := skipPad b (offset + len) len offset
    if start ≥ offset + len ∨ start ≥ b.size then []
    else
      let str := toUTF8 (baToList (baSlice b start (offset + len)))
      if str = [] then [] else nulCut (jsTrim str)

/-! ## Data model -/

/-- One palette entry: four unsigned 8-bit channels. -/
structure Color where
  r : Nat
  g : Nat
  b : Nat
  a : Nat
deriving DecidableEq

/-- One embedded program block reference recorded at parse time
(`team.okeBlocks[k]`): the original index into the 31-slot block table (as
the signed value `readUint32` produced) and the sliced payload. -/
structure OkeBlk where
  originalIndex : Int
  data : ByteArr

/-- A parsed team record, with the fields the generator consumes. -/
structure Team where
  name : List Nat
  owner : List Nat
  colors : List Color
  primaryColor : Color
  rawBuffer : Option ByteArr
  isMatchDerived : Bool
  okeBlocks : List OkeBlk

/-- Fallback color used when the palette is missing (`{128,128,128,255}`). -/
def defaultColor : Color := ⟨128, 128, 128, 255⟩

/-- Read the 16-entry color palette at offset `o` (4 bytes per color). -/
def paletteAt (b : ByteArr) (o : Nat) : List Color :=
  (List.range 16).map (fun i =>
    ⟨b.get (o + 4 * i), b.get (o + 4 * i + 1), b.get (o + 4 * i + 2), b.get (o + 4 * i + 3)⟩)

/-- Result of `CHEParser.parseTeamFile`. -/
structure ParsedTeamFile where
  magic : List Nat
  version : Int
  teams : List Team

/-- `CHEParser.parseTeamFile`: palette at 0x240, name at 0x280, owner at
0x298; exactly one team when the name is non-empty (and non-blank), else an
empty team list. -/
def parseTeamFile (b : ByteArr) : ParsedTeamFile :=
  let colors := paletteAt b 0x240
  let name := readSJISString b 0x280 24
  let owner := readSJISString b 0x298 24
  let teams :=
    if name ≠ [] ∧ jsTrim name ≠ [] then
      [{ name := name, owner := owner, colors := colors,
         primaryColor := colors.getD 1 (colors.getD 0 defaultColor),
         rawBuffer := some b, isMatchDerived := false, okeBlocks := [] }]
    else []
  { magic := readString b 0 4, version := readUint32 b 4, teams := teams }

/-- `CHEParser.parseMatchTeamRecord`: palette at slot+0x14, name at
slot+0x54 (26 bytes), owner at slot+0x6C; the team is returned
unconditionally, the name defaulting to the empty string. -/
def parseMatchTeamRecord (b : ByteArr) (offset : Nat) : Team :=
  let colors := paletteAt b (offset + 0x14)
  { name := readSJISString b (offset + 0x54) 26,
    owner := readSJISString b (offset + 0x6C) 24,
    colors := colors,
    primaryColor := colors.getD 1 (colors.getD 0 defaultColor),
    rawBuffer := none, isMatchDerived := false, okeBlocks := [] }

/-- One of the three per-slot block references read by `parseMatchFile`:
indices `< 31` (as signed values) that stay inside the buffer yield a
recorded block. -/
def okeEntry (b : ByteArr) (offset k : Nat) : List OkeBlk :=
  let okeIndex := readUint32 b (offset + 0xB8 + k * 48)
  if okeIndex < 31 then
    let blockOffset : Int := 14524 + okeIndex * 7872
    if blockOffset + 7872 ≤ (b.size : Int) then
      [⟨okeIndex, baSliceI b blockOffset (blockOffset + 7872)⟩]
    else []
  else []

/-- The per-team block list recorded by `parseMatchFile` (entries 0,1,2). -/
def okeList (b : ByteArr) (offset : Nat) : List OkeBlk :=
  okeEntry b offset 0 ++ okeEntry b offset 1 ++ okeEntry b offset 2

/-- The slot-scanning loop of `parseMatchFile`: up to `n` slots starting at
slot index `i`, stopping early when a slot would read past the buffer. -/
def matchTeams (b : ByteArr) : Nat → Nat → List Team
  | 0, _ => []
  | m + 1, i =>
    let offset := 1160 + i * 832
    if offset + 832 > b.size then []
    else
      let t := parseMatchTeamRecord b offset
      { t with rawBuffer := some (baSlice b offset (offset + 832)),
               isMatchDerived := true, okeBlocks := okeList b offset } ::
        matchTeams b m (i + 1)

/-- A result matrix: `M i j` is 0 none, 1 win, 2 loss, 3 draw. -/
def Mat : Type := Nat → Nat → Nat

/-- Store one matrix cell. -/
def mset (M : Mat) (i j v : Nat) : Mat :=
  fun a b => if a = i ∧ b = j then v else M a b

/-- The mirrored result for the opposing team (win and loss swap, draw and
none stay). -/
def mirror (s : Nat) : Nat := if s = 1 then 2 else if s = 2 then 1 else s

/-- The upper-triangular pair order the result bitstream uses: `(i, j)` for
`0 ≤ i < j < 15`, row-major. -/
def pairs15 : List (Nat × Nat) :=
  ((List.range 15).map (fun i =>
    (List.range 15).filterMap (fun j => if i < j then some (i, j) else none))).flatten

/-- The bit-unpacking loop of `extractMatchResults`: two bits per pair, a
fresh byte fetched whenever the bit position wraps, mirror entry derived. -/
def extractGo (b : ByteArr) (tc : Int) : List (Nat × Nat) → Nat → Nat → Nat → Mat → Mat
  | [], _, _, _, M => M
  | (i, j) :: rest, cur, bit, boff, M =>
    let cur2 := if bit = 0 then (if 13640 + boff < b.size then b.get (13640 + boff) else 0) else cur
    let boff2 := if bit = 0 then boff + 1 else boff
    let res := cur2 >>> bit &&& 3
    let bit2 := if bit + 2 ≥ 8 then 0 else bit + 2
    let M2 :=
      if (i : Int) < tc ∧ (j : Int) < tc then mset (mset M i j res) j i (mirror res) else M
    extractGo b tc rest cur2 bit2 boff2 M2

/-- `CHEParser.extractMatchResults`: a zero matrix when the fixed result
offset is out of range, otherwise the unpacked pair data. -/
def extractMatchResults (b : ByteArr) (tc : Int) : Mat :=
  let M0 : Mat := fun _ _ => 0
  if 13640 ≥ b.size then M0 else extractGo b tc pairs15 0 0 0 M0

/-- Result of `CHEParser.parseMatchFile`. -/
structure ParsedMatchFile where
  magic : List Nat
  headerSize : Nat
  version : List Nat
  tournamentName : List Nat
  teamCount : Int
  matchCount : Int
  teams : List Team
  results : Mat

/-- `CHEParser.parseMatchFile`: header fields at fixed offsets, `teamCount`
slots scanned from 0x488, results unpacked from 0x3548. -/
def parseMatchFile (b : ByteArr) : ParsedMatchFile :=
  let tc := readUint32 b 0x34
  { magic := readString b 0 4,
    headerSize := readUint16 b 4,
    version := readString b 8 8,
    tournamentName := toUTF8 (baToList (baSlice b 0x10 0x30)),
    teamCount := tc,
    matchCount := readUint32 b 0x38,
    teams := matchTeams b tc.toNat 0,
    results := extractMatchResults b tc }

/-- `TableViewer.updateResult`: set a cell and derive the mirror cell. -/
def updateResult (M : Mat) (row col status : Nat) : Mat :=
  mset (mset M row col status) col row (mirror status)

/-! ## Generators -/

/-- `CHEParser.generateTeamFile`: concatenate each team's raw fragment; a
team without one contributes 24512 bytes to the declared size but writes
nothing (the write offset does not advance for it). -/
def generateTeamFile (teams : List Team) : ByteArr :=
  if teams.length = 0 then ⟨0, fun _ => 0⟩
  else
    let total := teams.foldl
      (fun acc t => acc + (match t.rawBuffer with | some r => r.size | none => 24512)) 0
    let p := teams.foldl
      (fun (p : Buf × Nat) t =>
        match t.rawBuffer with
        | some r => (cpy p.1 p.2 r 0 r.size, p.2 + r.size)
        | none => p)
      ((fun _ => 0 : Buf), 0)
    ⟨total, p.1⟩

/-- The relocation state of one `generateMatchFile` call: the next free
block index, the original-index → new-index map, and (for specification
purposes) the ordered list of block placements actually performed; the code
records a mapping exactly when it copies a payload, so `placed` mirrors the
map insertions one-for-one. -/
structure GenSt where
  nextIdx : Nat
  imap : Int → Option Nat
  placed : List (Int × Nat)

/-- One iteration of the block-relocation loop: skip already-mapped blocks,
place an unmapped one at the next free index while below the 31-block cap
(and inside the file), and silently drop it otherwise. -/
def relocStep (bs : Buf × GenSt) (blk : OkeBlk) : Buf × GenSt :=
  if (bs.2.imap blk.originalIndex).isSome then bs
  else if bs.2.nextIdx < 31 then
    let destOffset := 14524 + bs.2.nextIdx * 7872
    if destOffset + 7872 > 266232 then bs
    else
      (cpy bs.1 destOffset blk.data 0 (min 7872 blk.data.size),
       ⟨bs.2.nextIdx + 1,
        fun x => if x = blk.originalIndex then some bs.2.nextIdx else bs.2.imap x,
        bs.2.placed ++ [(blk.originalIndex, bs.2.nextIdx)]⟩)
  else bs

/-- The relocation loop over one team's recorded blocks. -/
def relocBlocks (b : Buf) (st : GenSt) (blks : List OkeBlk) : Buf × GenSt :=
  blks.foldl relocStep (b, st)

/-- Rewrite one per-slot block-reference entry: a live (< 31) index present
in the relocation map is overwritten with its mapped index. -/
def rewriteRef (b : Buf) (im : Int → Option Nat) (slot n : Nat) : Buf :=
  let off := slot + 0xB8 + n * 48
  let old := getUint32 b off
  if old < 31 then
    match im (old : Int) with
    | some nw => wr32 b off nw
    | none => b
  else b

/-- Rewrite the three per-slot block-reference entries in order. -/
def rewriteRefs (b : Buf) (im : Int → Option Nat) (slot : Nat) : Buf :=
  rewriteRef (rewriteRef (rewriteRef b im slot 0) im slot 1) im slot 2

/-- The team-file → tournament-slot field remap of `generateMatchFile`:
palette 0x240→0x14 (64 bytes), name 0x280→0x54 (24), owner 0x298→0x6C (24). -/
def copyMapW (b : Buf) (slot : Nat) (r : ByteArr) : Buf :=
  cpy (cpy (cpy b (slot + 0x14) r 0x240 64) (slot + 0x54) r 0x280 24) (slot + 0x6C) r 0x298 24

/-- The fixed default block indices for the three entry positions
(`BASE_OKE_INDICES`). -/
def baseOkeIndices : List Nat := [0, 1, 2]

/-- The entry type tag (`OKE_MAGIC`). -/
def okeMagic : List Nat := [0xC8, 0xE7, 0xAC, 0x08]

/-- The entry active flag (`OKE_FLAG`). -/
def okeFlag : List Nat := [0x01, 0x00, 0x00, 0x00]

/-- Default-initialize one block-reference entry of a team-file-origin
slot: only an index reading exactly `0xFFFFFFFF` or `0xCDCDCDCD` is
rewritten (index := fixed default, tag/flag := constants, statistics bytes
zero-filled); any other entry is left untouched. -/
def okeInitEntry (b : Buf) (slot n : Nat) : Buf :=
  let off := slot + 0xB8 + n * 48
  let cur := getUint32 b off
  if cur = 0xFFFFFFFF ∨ cur = 0xCDCDCDCD then
    zeroRange (writeList (writeList (wr32 b off (baseOkeIndices.getD n 0)) (off + 4) okeMagic)
      (off + 8) okeFlag) (off + 12) 36
  else b

/-- Default-initialize the three entries in order. -/
def okeInit (b : Buf) (slot : Nat) : Buf :=
  okeInitEntry (okeInitEntry (okeInitEntry b slot 0) slot 1) slot 2

/-- Process one selected team: tournament-origin teams get their raw slot
copied and their blocks relocated; team-file-origin teams get the field
remap and the entry default-initialization; teams without a raw fragment
write nothing. -/
def processTeam (bs : Buf × GenSt) (idx : Nat) (team : Team) : Buf × GenSt :=
  let slot := 1160 + idx * 832
  if slot + 832 > 266232 then bs
  else if team.isMatchDerived then
    match team.rawBuffer with
    | none => bs
    | some r =>
      let b1 := cpy bs.1 slot r 0 832
      if team.okeBlocks.length = 0 then (b1, bs.2)
      else
        let p := relocBlocks b1 bs.2 team.okeBlocks
        (rewriteRefs p.1 p.2.imap slot, p.2)
  else
    match team.rawBuffer with
    | none => bs
    | some r => (okeInit (copyMapW bs.1 slot r) slot, bs.2)

/-- The slot loop of `generateMatchFile` over the (at most 16) selected
teams, threading the shared relocation state. -/
def slotsGo (bs : Buf × GenSt) (idx : Nat) : List Team → Buf × GenSt
  | [] => bs
  | t :: ts => slotsGo (processTeam bs idx t) (idx + 1) ts

/-- The output buffer after the verbatim template copy: a 266232-byte
`Uint8Array` seeded with `templateData.slice(0, 266232)`, zero beyond the
template's end. -/
def baseBuf (tmpl : ByteArr) : Buf :=
  fun o => if o < min tmpl.size 266232 then tmpl.get o % 256 else 0

/-- The result-writing loop of `generateMatchFile`: two bits per pair,
always the value 0 ("no match"), flushing each full byte. -/
def resLoop : List (Nat × Nat) → Buf → Nat → Nat → Nat → Buf × Nat × Nat × Nat
  | [], b, cur, bit, boff => (b, cur, bit, boff)
  | _ :: rest, b, cur, bit, boff =>
    let cur2 := cur ||| (0 &&& 3) <<< bit
    let bit2 := bit + 2
    if bit2 ≥ 8 then resLoop rest (wr b (13640 + boff) cur2) 0 0 (boff + 1)
    else resLoop rest b cur2 bit2 boff

/-- The result-matrix write phase: run the pair loop from 0x3548 and flush
the trailing partial byte. -/
def resultsPhase (b : Buf) : Buf :=
  let r := resLoop pairs15 b 0 0 0
  if r.2.2.1 > 0 then wr r.1 (13640 + r.2.2.2) r.2.1 else r.1

/-- The header phase of `generateMatchFile`: template copy, tournament-name
fields (16 bytes at 0x18, 24 bytes at 0x168, each zero-filled first), and
team/match counts at 0x34/0x38/0x184/0x188. -/
def headerBuf (tmpl : ByteArr) (teams : List Team) (tname : List Nat) : Buf :=
  let tN := toSJIS tname
  let b1 := writeList (zeroRange (baseBuf tmpl) 0x18 16) 0x18 (tN.take 16)
  let b2 := writeList (zeroRange b1 0x168 24) 0x168 (tN.take 24)
  let tc := min teams.length 16
  let mc := tc * (tc - 1) / 2
  wr32 (wr32 (wr32 (wr32 b2 0x34 tc) 0x38 mc) 0x184 tc) 0x188 mc

/-- The fresh relocation state at the start of one generation call. -/
def initGenSt : GenSt := ⟨0, fun _ => none, []⟩

/-- `CHEParser.generateMatchFile`, also exposing the final relocation
state: the header phase, the slot loop over the (at most 16) selected
teams, and the all-zero result write. -/
def generateMatchFileCore (tmpl : ByteArr) (teams : List Team) (tname : List Nat) :
    Buf × GenSt :=
  let p := slotsGo (headerBuf tmpl teams tname, initGenSt) 0 (teams.take 16)
  (resultsPhase p.1, p.2)

/-- The generated tournament buffer (the function the caller receives). -/
def generateMatchFile (tmpl : ByteArr) (teams : List Team) (tname : List Nat) : Buf :=
  (generateMatchFileCore tmpl teams tname).1

/-! ## Specification predicates and concrete scenario data -/

/-- The symmetry invariant of §3 for a result matrix over `n` teams: every
off-diagonal cell is in range and mirrors its transpose (win ↔ loss, draw ↔
draw, none ↔ none). -/
def SymOK (M : Mat) (n : Int) : Prop :=
  ∀ i j : Nat, (i : Int) < n → (j : Int) < n → i ≠ j →
    M i j ≤ 3 ∧ (M i j = 1 ↔ M j i = 2) ∧ (M i j = 3 ↔ M j i = 3) ∧ (M i j = 0 ↔ M j i = 0)

/-- Invariant of the relocation state: the counter never exceeds 31, the
placement log has exactly `nextIdx` entries with pairwise-distinct original
indices, and the map holds exactly the logged original indices. -/
def StInv (st : GenSt) : Prop :=
  st.nextIdx ≤ 31 ∧ st.placed.length = st.nextIdx ∧ (st.placed.map Prod.fst).Nodup ∧
    (∀ o : Int, (st.imap o).isSome ↔ o ∈ st.placed.map Prod.fst)

/-- Every index stored in the relocation map is below the 31-block cap. -/
def StBound (st : GenSt) : Prop := ∀ (o : Int) (n : Nat), st.imap o = some n → n < 31

/-- The original block indices of all blocks of the (at most 16) selected
teams. -/
def allBlockIdx (teams : List Team) : List Int :=
  ((teams.take 16).map (fun t => t.okeBlocks.map (fun blk => blk.originalIndex))).flatten

/-- An empty-payload block reference with a given original index (used in
concrete scenarios). -/
def blkD (i : Int) : OkeBlk := ⟨i, ⟨0, fun _ => 0⟩⟩

/-- A tournament-origin scenario team carrying three block references. -/
def mkTX (i j k : Int) : Team :=
  ⟨[65], [], [], defaultColor, some ⟨0, fun _ => 0⟩, true, [blkD i, blkD j, blkD k]⟩

/-- A tournament-origin scenario team carrying one block reference. -/
def mkTX1 (i : Int) : Team :=
  ⟨[65], [], [], defaultColor, some ⟨0, fun _ => 0⟩, true, [blkD i]⟩

/-- Thirteen teams holding 33 distinct block indices followed by a shared
index 40 referenced by the last two teams. -/
def teamsX : List Team :=
  [mkTX 0 1 2, mkTX 3 4 5, mkTX 6 7 8, mkTX 9 10 11, mkTX 12 13 14, mkTX 15 16 17,
   mkTX 18 19 20, mkTX 21 22 23, mkTX 24 25 26, mkTX 27 28 29, mkTX 30 31 32,
   mkTX1 40, mkTX1 40]

def matchSlotTeam (b : ByteArr) (offset : Nat) : Team :=
  let t := parseMatchTeamRecord b offset
  { t with rawBuffer := some (baSlice b offset (offset + 832)),
           isMatchDerived := true, okeBlocks := okeList b offset }

/-- A minimal 688-byte team-file fragment whose name field holds the single
byte `c`. -/
def rawC3 (c : Nat) : ByteArr := ⟨688, fun i => if i = 0x280 then c else 0⟩

/-- A team-file-origin team consistent with its raw fragment `rawC3 c`. -/
def mkTC3 (c : Nat) : Team :=
  { name := [c], owner := [], colors := [], primaryColor := ⟨0, 0, 0, 0⟩,
    rawBuffer := some (rawC3 c), isMatchDerived := false, okeBlocks := [] }

/-- A minimal 832-byte tournament-slot fragment whose name field holds the
single byte `M`. -/
def rawMC3 : ByteArr := ⟨832, fun i => if i = 0x54 then 77 else 0⟩

/-- A tournament-origin team consistent with its raw slot `rawMC3`. -/
def tMC3 : Team :=
  { name := [77], owner := [], colors := [], primaryColor := ⟨0, 0, 0, 0⟩,
    rawBuffer := some rawMC3, isMatchDerived := true, okeBlocks := [] }

/-! ## Pointwise buffer lemmas -/

theorem wr_at (b : Buf) (o v : Nat) : wr b o v o = v % 256 := by
  simp [wr]

theorem wr_ne (b : Buf) (o v x : Nat) (h : x ≠ o) : wr b o v x = b x := by
  simp [wr, h]

theorem zeroRange_out (n : Nat) : ∀ (b : Buf) (o x : Nat), (x < o ∨ o + n ≤ x) →
    zeroRange b o n x = b x := by
  induction n with
  | zero => intro b o x _; rfl
  | succ m ih =>
    intro b o x h
    show zeroRange (wr b o 0) (o + 1) m x = b x
    rw [ih (wr b o 0) (o + 1) x (by omega), wr_ne]
    omega

theorem zeroRange_at (n : Nat) : ∀ (b : Buf) (o k : Nat), k < n →
    zeroRange b o n (o + k) = 0 := by
  induction n with
  | zero => intro b o k h; omega
  | succ m ih =>
    intro b o k h
    show zeroRange (wr b o 0) (o + 1) m (o + k) = 0
    cases Nat.eq_zero_or_pos k with
    | inl h0 =>
      subst h0
      rw [zeroRange_out m _ _ _ (by omega), Nat.add_zero, wr_at]
    | inr hpos =>
      have : o + k = (o + 1) + (k - 1) := by omega
      rw [this, ih _ (o + 1) (k - 1) (by omega)]

theorem writeList_out (l : List Nat) : ∀ (b : Buf) (o x : Nat),
    (x < o ∨ o + l.length ≤ x) → writeList b o l x = b x := by
  induction l with
  | nil => intro b o x _; rfl
  | cons v rest ih =>
    intro b o x h
    show writeList (wr b o v) (o + 1) rest x = b x
    rw [ih (wr b o v) (o + 1) x (by simp at h ⊢; omega), wr_ne]
    simp at h; omega

theorem writeList_at (l : List Nat) : ∀ (b : Buf) (o k : Nat), k < l.length →
    writeList b o l (o + k) = l.getD k 0 % 256 := by
  induction l with
  | nil => intro b o k h; simp at h
  | cons v rest ih =>
    intro b o k h
    show writeList (wr b o v) (o + 1) rest (o + k) = _
    cases Nat.eq_zero_or_pos k with
    | inl h0 =>
      subst h0
      rw [writeList_out rest _ _ _ (by omega), Nat.add_zero, wr_at]
      rfl
    | inr hpos =>
      have he : o + k = (o + 1) + (k - 1) := by omega
      have hgd : rest.getD (k - 1) 0 = (v :: rest).getD k 0 := by
        cases k with
        | zero => omega
        | succ j => simp
      rw [he, ih _ (o + 1) (k - 1) (by simp at h; omega), hgd]

theorem cpy_out (n : Nat) : ∀ (b : Buf) (dst : Nat) (src : ByteArr) (so x : Nat),
    (x < dst ∨ dst + n ≤ x) → cpy b dst src so n x = b x := by
  induction n with
  | zero => intro b dst src so x _; rfl
  | succ m ih =>
    intro b dst src so x h
    show (if so < src.size then cpy (wr b dst (src.get so)) (dst + 1) src (so + 1) m else b) x = b x
    by_cases hs : so < src.size
    · rw [if_pos hs, ih _ (dst + 1) src (so + 1) x (by omega), wr_ne]
      omega
    · rw [if_neg hs]

theorem cpy_at (n : Nat) : ∀ (b : Buf) (dst : Nat) (src : ByteArr) (so k : Nat),
    k < n → so + k < src.size → cpy b dst src so n (dst + k) = src.get (so + k) % 256 := by
  induction n with
  | zero => intro _ _ _ _ _ h; omega
  | succ m ih =>
    intro b dst src so k hk hsz
    have hs : so < src.size := by omega
    show (if so < src.size then cpy (wr b dst (src.get so)) (dst + 1) src (so + 1) m else b) (dst + k) = _
    rw [if_pos hs]
    cases Nat.eq_zero_or_pos k with
    | inl h0 =>
      subst h0
      rw [cpy_out m _ _ _ _ _ (by omega), Nat.add_zero, Nat.add_zero, wr_at]
    | inr hpos =>
      have he : dst + k = (dst + 1) + (k - 1) := by omega
      have he2 : (so + 1) + (k - 1) = so + k := by omega
      rw [he, ih _ (dst + 1) src (so + 1) (k - 1) (by omega) (by omega), he2]

theorem wr32_out (b : Buf) (o v x : Nat) (h : x < o ∨ o + 4 ≤ x) : wr32 b o v x = b x := by
  show wr (wr (wr (wr b o v) (o + 1) (v / 256)) (o + 2) (v / 65536)) (o + 3) (v / 16777216) x = b x
  rw [wr_ne _ _ _ _ (by omega), wr_ne _ _ _ _ (by omega), wr_ne _ _ _ _ (by omega),
    wr_ne _ _ _ _ (by omega)]

theorem wr32_byte (b : Buf) (o v : Nat) (k : Nat) (hk : k < 4) :
    wr32 b o v (o + k) = v / 256 ^ k % 256 := by
  show wr (wr (wr (wr b o v) (o + 1) (v / 256)) (o + 2) (v / 65536)) (o + 3) (v / 16777216) (o + k) = _
  interval_cases k
  · rw [wr_ne _ _ _ _ (by omega), wr_ne _ _ _ _ (by omega), wr_ne _ _ _ _ (by omega),
      Nat.add_zero, wr_at]
    norm_num
  · rw [wr_ne _ _ _ _ (by omega), wr_ne _ _ _ _ (by omega), wr_at]
    norm_num
  · rw [wr_ne _ _ _ _ (by omega), wr_at]
    norm_num
  · rw [wr_at]
    norm_num

theorem getUint32_wr32 (b : Buf) (o v : Nat) (hv : v < 4294967296) :
    getUint32 (wr32 b o v) o = v := by
  have h0 := wr32_byte b o v 0 (by omega)
  have h1 := wr32_byte b o v 1 (by omega)
  have h2 := wr32_byte b o v 2 (by omega)
  have h3 := wr32_byte b o v 3 (by omega)
  simp only [pow_zero, pow_one, Nat.add_zero] at h0 h1 h2 h3
  show wr32 b o v o + 256 * wr32 b o v (o + 1) + 65536 * wr32 b o v (o + 2) +
    16777216 * wr32 b o v (o + 3) = v
  rw [h0, h1, h2, h3]
  norm_num
  omega

theorem resultsPhase_eq_zeroRange (b : Buf) : resultsPhase b = zeroRange b 13640 27 := by
  rfl

theorem resultsPhase_at (b : Buf) (k : Nat) (hk : k < 27) : resultsPhase b (13640 + k) = 0 := by
  rw [resultsPhase_eq_zeroRange, zeroRange_at _ _ _ _ hk]

theorem resultsPhase_out (b : Buf) (x : Nat) (h : x < 13640 ∨ 13667 ≤ x) :
    resultsPhase b x = b x := by
  rw [resultsPhase_eq_zeroRange, zeroRange_out _ _ _ _ (by omega)]

/-! ## Phase-level frame lemmas for `generateMatchFile` -/

theorem getUint32_congr (b1 b2 : Buf) (o : Nat)
    (h : ∀ k, k < 4 → b1 (o + k) = b2 (o + k)) : getUint32 b1 o = getUint32 b2 o := by
  have h0 := h 0 (by omega)
  have h1 := h 1 (by omega)
  have h2 := h 2 (by omega)
  have h3 := h 3 (by omega)
  simp only [Nat.add_zero] at h0
  show b1 o + 256 * b1 (o + 1) + 65536 * b1 (o + 2) + 16777216 * b1 (o + 3) = _
  rw [h0, h1, h2, h3]
  rfl

theorem copyMapW_out (b : Buf) (slot : Nat) (r : ByteArr) (x : Nat)
    (h : x < slot + 20 ∨ slot + 132 ≤ x) : copyMapW b slot r x = b x := by
  show cpy (cpy (cpy b (slot + 0x14) r 0x240 64) (slot + 0x54) r 0x280 24) (slot + 0x6C) r 0x298 24 x = b x
  rw [cpy_out _ _ _ _ _ _ (by omega), cpy_out _ _ _ _ _ _ (by omega),
    cpy_out _ _ _ _ _ _ (by omega)]

theorem okeInitEntry_out (b : Buf) (slot n x : Nat)
    (h : x < slot + 184 + n * 48 ∨ slot + 184 + n * 48 + 48 ≤ x) :
    okeInitEntry b slot n x = b x := by
  show (if getUint32 b (slot + 0xB8 + n * 48) = 0xFFFFFFFF ∨
      getUint32 b (slot + 0xB8 + n * 48) = 0xCDCDCDCD then
    zeroRange (writeList (writeList (wr32 b (slot + 0xB8 + n * 48) (baseOkeIndices.getD n 0))
      (slot + 0xB8 + n * 48 + 4) okeMagic) (slot + 0xB8 + n * 48 + 8) okeFlag)
      (slot + 0xB8 + n * 48 + 12) 36 else b) x = b x
  by_cases hc : getUint32 b (slot + 0xB8 + n * 48) = 0xFFFFFFFF ∨
      getUint32 b (slot + 0xB8 + n * 48) = 0xCDCDCDCD
  · rw [if_pos hc, zeroRange_out _ _ _ _ (by omega),
      writeList_out _ _ _ _ (by simp [okeFlag]; omega),
      writeList_out _ _ _ _ (by simp [okeMagic]; omega), wr32_out _ _ _ _ (by omega)]
  · rw [if_neg hc]

theorem okeInit_out (b : Buf) (slot x : Nat)
    (h : x < slot + 184 ∨ slot + 328 ≤ x) : okeInit b slot x = b x := by
  show okeInitEntry (okeInitEntry (okeInitEntry b slot 0) slot 1) slot 2 x = b x
  rw [okeInitEntry_out _ _ _ _ (by omega), okeInitEntry_out _ _ _ _ (by omega),
    okeInitEntry_out _ _ _ _ (by omega)]

theorem rewriteRef_out (b : Buf) (im : Int → Option Nat) (slot n x : Nat)
    (h : x < slot + 184 + n * 48 ∨ slot + 184 + n * 48 + 4 ≤ x) :
    rewriteRef b im slot n x = b x := by
  show (if getUint32 b (slot + 0xB8 + n * 48) < 31 then
    match im ((getUint32 b (slot + 0xB8 + n * 48) : Nat) : Int) with
    | some nw => wr32 b (slot + 0xB8 + n * 48) nw
    | none => b
    else b) x = b x
  by_cases hc : getUint32 b (slot + 0xB8 + n * 48) < 31
  · rw [if_pos hc]
    cases him : im ((getUint32 b (slot + 0xB8 + n * 48) : Nat) : Int) with
    | none => rfl
    | some nw => exact wr32_out _ _ _ _ (by omega)
  · rw [if_neg hc]

theorem rewriteRefs_out (b : Buf) (im : Int → Option Nat) (slot x : Nat)
    (h : x < slot + 184 ∨ slot + 328 ≤ x) : rewriteRefs b im slot x = b x := by
  show rewriteRef (rewriteRef (rewriteRef b im slot 0) im slot 1) im slot 2 x = b x
  rw [rewriteRef_out _ _ _ _ _ (by omega), rewriteRef_out _ _ _ _ _ (by omega),
    rewriteRef_out _ _ _ _ _ (by omega)]

theorem relocStep_buf_out (bs : Buf × GenSt) (blk : OkeBlk) (x : Nat) (h : x < 14524) :
    (relocStep bs blk).1 x = bs.1 x := by
  show (if (bs.2.imap blk.originalIndex).isSome then bs
    else if bs.2.nextIdx < 31 then
      if 14524 + bs.2.nextIdx * 7872 + 7872 > 266232 then bs
      else (cpy bs.1 (14524 + bs.2.nextIdx * 7872) blk.data 0 (min 7872 blk.data.size), _)
    else bs).1 x = bs.1 x
  by_cases h1 : (bs.2.imap blk.originalIndex).isSome
  · rw [if_pos h1]
  · rw [if_neg h1]
    by_cases h2 : bs.2.nextIdx < 31
    · rw [if_pos h2]
      by_cases h3 : 14524 + bs.2.nextIdx * 7872 + 7872 > 266232
      · rw [if_pos h3]
      · rw [if_neg h3]
        exact cpy_out _ _ _ _ _ _ (by omega)
    · rw [if_neg h2]

theorem relocBlocks_buf_out (blks : List OkeBlk) : ∀ (b : Buf) (st : GenSt) (x : Nat),
    x < 14524 → (relocBlocks b st blks).1 x = b x := by
  induction blks with
  | nil => intro b st x _; rfl
  | cons blk rest ih =>
    intro b st x hx
    show (List.foldl relocStep (relocStep (b, st) blk) rest).1 x = b x
    have : (List.foldl relocStep (relocStep (b, st) blk) rest).1 x =
        (relocStep (b, st) blk).1 x := by
      have := ih (relocStep (b, st) blk).1 (relocStep (b, st) blk).2 x hx
      simpa [relocBlocks] using this
    rw [this, relocStep_buf_out _ _ _ hx]

theorem processTeam_buf_out (bs : Buf × GenSt) (idx : Nat) (team : Team) (x : Nat)
    (hx : x < 14524) (hslot : x < 1160 + idx * 832 ∨ 1160 + idx * 832 + 832 ≤ x) :
    (processTeam bs idx team).1 x = bs.1 x := by
  show (if 1160 + idx * 832 + 832 > 266232 then bs
    else if team.isMatchDerived then
      match team.rawBuffer with
      | none => bs
      | some r =>
        let b1 := cpy bs.1 (1160 + idx * 832) r 0 832
        if team.okeBlocks.length = 0 then (b1, bs.2)
        else
          let p := relocBlocks b1 bs.2 team.okeBlocks
          (rewriteRefs p.1 p.2.imap (1160 + idx * 832), p.2)
    else
      match team.rawBuffer with
      | none => bs
      | some r => (okeInit (copyMapW bs.1 (1160 + idx * 832) r) (1160 + idx * 832), bs.2)).1 x = bs.1 x
  by_cases hov : 1160 + idx * 832 + 832 > 266232
  · rw [if_pos hov]
  · rw [if_neg hov]
    by_cases hmd : team.isMatchDerived
    · rw [if_pos hmd]
      cases hr : team.rawBuffer with
      | none => rfl
      | some r =>
        simp only
        by_cases hob : team.okeBlocks.length = 0
        · rw [if_pos hob]
          exact cpy_out _ _ _ _ _ _ (by omega)
        · rw [if_neg hob]
          simp only
          rw [rewriteRefs_out _ _ _ _ (by omega), relocBlocks_buf_out _ _ _ _ hx,
            cpy_out _ _ _ _ _ _ (by omega)]
    · rw [if_neg hmd]
      cases hr : team.rawBuffer with
      | none => rfl
      | some r =>
        simp only
        rw [okeInit_out _ _ _ (by omega), copyMapW_out _ _ _ _ (by omega)]

theorem slotsGo_buf_out (ts : List Team) : ∀ (bs : Buf × GenSt) (idx x : Nat),
    x < 14524 →
    (∀ j, idx ≤ j → j < idx + ts.length → x < 1160 + j * 832 ∨ 1160 + j * 832 + 832 ≤ x) →
    (slotsGo bs idx ts).1 x = bs.1 x := by
  induction ts with
  | nil => intro bs idx x _ _; rfl
  | cons t rest ih =>
    intro bs idx x hx hj
    show (slotsGo (processTeam bs idx t) (idx + 1) rest).1 x = bs.1 x
    rw [ih (processTeam bs idx t) (idx + 1) x hx
        (by intro j h1 h2; exact hj j (by omega) (by simp only [List.length_cons]; omega)),
      processTeam_buf_out bs idx t x hx
        (hj idx (by omega) (by simp only [List.length_cons]; omega))]

theorem slotsGo_buf_low (ts : List Team) (bs : Buf × GenSt) (idx x : Nat)
    (hx : x < 1160) : (slotsGo bs idx ts).1 x = bs.1 x := by
  exact slotsGo_buf_out ts bs idx x (by omega) (by intro j _ _; omega)

theorem slotsGo_append (l1 : List Team) : ∀ (l2 : List Team) (bs : Buf × GenSt) (idx : Nat),
    slotsGo bs idx (l1 ++ l2) = slotsGo (slotsGo bs idx l1) (idx + l1.length) l2 := by
  induction l1 with
  | nil => intro l2 bs idx; simp [slotsGo]
  | cons t rest ih =>
    intro l2 bs idx
    show slotsGo (processTeam bs idx t) (idx + 1) (rest ++ l2) = _
    rw [ih l2 (processTeam bs idx t) (idx + 1)]
    simp [slotsGo]
    congr 1
    omega

/-! ## Encoded-name byte bounds -/

theorem toSJIS_lt256 (s : List Nat) : ∀ c ∈ toSJIS s, c < 256 := by
  induction s with
  | nil => simp [toSJIS]
  | cons a rest ih =>
    intro c hc
    simp only [toSJIS, List.mem_append] at hc
    rcases hc with h | h
    · split at h
      · simp only [List.mem_singleton] at h; omega
      · split at h
        · simp only [List.mem_singleton] at h; omega
        · split at h
          · simp only [List.mem_cons, List.not_mem_nil, or_false] at h
            rcases h with h | h <;> omega
          · split at h
            · simp only [List.mem_cons, List.not_mem_nil, or_false] at h
              rcases h with h | h <;> omega
            · split at h
              · simp only [List.mem_cons, List.not_mem_nil, or_false] at h
                rcases h with h | h <;> omega
              · split at h
                · simp only [List.mem_cons, List.not_mem_nil, or_false] at h
                  rcases h with h | h <;> omega
                · simp only [List.mem_singleton] at h; omega
    · exact ih c h

theorem toSJIS_getD_lt256 (s : List Nat) (k : Nat) (hk : k < (toSJIS s).length) :
    (toSJIS s).getD k 0 < 256 := by
  apply toSJIS_lt256
  rw [List.getD_eq_getElem?_getD]
  have : (toSJIS s)[k]? = some (toSJIS s)[k] := List.getElem?_eq_getElem hk
  rw [this]
  exact List.getElem_mem hk

/-- Byte value written into one tournament-name field position. -/
theorem nameField_value (tmplB : Buf) (tN : List Nat) (o w i : Nat) (hi : i < w)
    (hb : ∀ c ∈ tN, c < 256) :
    writeList (zeroRange tmplB o w) o (tN.take w) (o + i) =
      if i < tN.length then tN.getD i 0 else 0 := by
  by_cases h : i < (tN.take w).length
  · rw [writeList_at _ _ _ _ h]
    have hlen : i < tN.length := by
      rw [List.length_take] at h; omega
    rw [if_pos hlen]
    have hget : (tN.take w).getD i 0 = tN.getD i 0 := by
      rw [List.getD_eq_getElem?_getD, List.getD_eq_getElem?_getD, List.getElem?_take]
      simp [hi]
    rw [hget, Nat.mod_eq_of_lt]
    apply hb
    rw [List.getD_eq_getElem?_getD]
    have : tN[i]? = some tN[i] := List.getElem?_eq_getElem hlen
    rw [this]
    exact List.getElem_mem hlen
  · rw [writeList_out _ _ _ _ (by omega), zeroRange_at _ _ _ _ hi]
    have : ¬ i < tN.length := by
      rw [List.length_take] at h; omega
    rw [if_neg this]

/-! ## Claim C1 -/

/-- Claim C1, counterexample: with a template whose result-region bytes are
all 7 and an empty team list, the generated buffer holds 0 at offset 0x3548
while the template holds 7 there — the result-matrix region is NOT
byte-identical to the template. -/
theorem c1_counterexample :
    generateMatchFile ⟨266232, fun _ => 7⟩ [] [] 13640 = 0 ∧
    (⟨266232, fun _ => 7⟩ : ByteArr).get 13640 = 7 ∧ (0 : Nat) ≠ 7 := by
  refine ⟨by decide, rfl, by decide⟩

/-- Claim C1 (amended): `generateMatchFile` does not preserve the template's
result-matrix region; instead it unconditionally overwrites the 27-byte
packed-result region at 0x3548 with the all-"None" bitstream, i.e. every
byte of that region in the output is 0 regardless of template and teams. -/
theorem c1_theorem (tmpl : ByteArr) (teams : List Team) (tname : List Nat) (k : Nat)
    (hk : k < 27) : generateMatchFile tmpl teams tname (13640 + k) = 0 := by
  simp only [generateMatchFile, generateMatchFileCore]
  exact resultsPhase_at _ _ hk

/-- Claim C1, witness. -/
theorem c1_witness :
    0 < 27 ∧ generateMatchFile ⟨266232, fun _ => 255⟩ [] [] (13640 + 0) = 0 :=
  ⟨by decide, c1_theorem ⟨266232, fun _ => 255⟩ [] [] 0 (by decide)⟩

/-! ## Claim C6 -/

/-- Claim C6, counterexample: the first tournament-name field is 16 bytes
wide, not 24. With a 17-character ASCII name over an all-0xAB template, a
24-byte zero-filled field would put the 17th name byte (65) at offset 0x28;
the generator leaves the template byte 0xAB there. -/
theorem c6_counterexample :
    generateMatchFile ⟨266232, fun _ => 0xAB⟩ []
        [65, 65, 65, 65, 65, 65, 65, 65, 65, 65, 65, 65, 65, 65, 65, 65, 65] 0x28 = 0xAB ∧
    (0xAB : Nat) ≠ 65 ∧ (0xAB : Nat) ≠ 0 := by
  refine ⟨by decide, by decide, by decide⟩

/-- Claim C6 (amended): `generateMatchFile` writes the encoded tournament
name at a 16-byte field at 0x18 and a 24-byte field at 0x168, zero-filling
each field before writing the encoded name bytes truncated to that field's
width. -/
theorem c6_theorem (tmpl : ByteArr) (teams : List Team) (tname : List Nat) :
    (∀ i, i < 16 → generateMatchFile tmpl teams tname (24 + i) =
       if i < (toSJIS tname).length then (toSJIS tname).getD i 0 else 0) ∧
    (∀ i, i < 24 → generateMatchFile tmpl teams tname (360 + i) =
       if i < (toSJIS tname).length then (toSJIS tname).getD i 0 else 0) := by
  constructor
  · intro i hi
    simp only [generateMatchFile, generateMatchFileCore]
    rw [resultsPhase_out _ _ (by omega), slotsGo_buf_low _ _ _ _ (by omega)]
    simp only [headerBuf]
    rw [wr32_out _ _ _ _ (by omega), wr32_out _ _ _ _ (by omega),
      wr32_out _ _ _ _ (by omega), wr32_out _ _ _ _ (by omega),
      writeList_out _ _ _ _ (by left; omega), zeroRange_out _ _ _ _ (by omega)]
    exact nameField_value _ _ _ _ _ hi (toSJIS_lt256 tname)
  · intro i hi
    simp only [generateMatchFile, generateMatchFileCore]
    rw [resultsPhase_out _ _ (by omega), slotsGo_buf_low _ _ _ _ (by omega)]
    simp only [headerBuf]
    rw [wr32_out _ _ _ _ (by omega), wr32_out _ _ _ _ (by omega),
      wr32_out _ _ _ _ (by omega), wr32_out _ _ _ _ (by omega)]
    exact nameField_value _ _ _ _ _ hi (toSJIS_lt256 tname)

/-- Claim C6, witness: the first byte of each field receives the first
encoded name byte. -/
theorem c6_witness :
    generateMatchFile ⟨266232, fun _ => 0xAB⟩ [] [66] (24 + 0) =
      (if 0 < (toSJIS [66]).length then (toSJIS [66]).getD 0 0 else 0) ∧
    generateMatchFile ⟨266232, fun _ => 0xAB⟩ [] [66] (360 + 0) =
      (if 0 < (toSJIS [66]).length then (toSJIS [66]).getD 0 0 else 0) :=
  ⟨(c6_theorem ⟨266232, fun _ => 0xAB⟩ [] [66]).1 0 (by decide),
   (c6_theorem ⟨266232, fun _ => 0xAB⟩ [] [66]).2 0 (by decide)⟩

/-! ## Claim C9 -/

theorem mset_pair_sym (M : Mat) (n : Int) (i j v : Nat) (hM : SymOK M n) (hij : i ≠ j)
    (hv : v ≤ 3) : SymOK (mset (mset M i j v) j i (mirror v)) n := by
  intro a b ha hb hab
  by_cases h1 : a = j ∧ b = i
  · have e1 : mset (mset M i j v) j i (mirror v) a b = mirror v := by
      simp [mset, h1]
    have e2 : mset (mset M i j v) j i (mirror v) b a = v := by
      have : ¬ (b = j ∧ a = i) := by
        intro hcontra
        exact hij (by omega)
      simp [mset, this, h1.1, h1.2, hij]
    rw [e1, e2]
    interval_cases v <;> simp [mirror]
  · by_cases h2 : a = i ∧ b = j
    · have e1 : mset (mset M i j v) j i (mirror v) a b = v := by
        simp [mset, h1, h2.1, h2.2, hij]
      have e2 : mset (mset M i j v) j i (mirror v) b a = mirror v := by
        simp [mset, h2.1, h2.2, hij]
      rw [e1, e2]
      interval_cases v <;> simp [mirror]
    · have e1 : mset (mset M i j v) j i (mirror v) a b = M a b := by
        simp [mset, h1, h2]
      have e2 : mset (mset M i j v) j i (mirror v) b a = M b a := by
        have g1 : ¬ (b = j ∧ a = i) := fun hc => h2 ⟨hc.2, hc.1⟩
        have g2 : ¬ (b = i ∧ a = j) := fun hc => h1 ⟨hc.2, hc.1⟩
        simp [mset, g1, g2]
      rw [e1, e2]
      exact hM a b ha hb hab

theorem updateResult_sym (M : Mat) (n : Int) (row col status : Nat) (hM : SymOK M n)
    (hs : status ≤ 3) : SymOK (updateResult M row col status) n := by
  by_cases hrc : row = col
  · intro a b ha hb hab
    have e : ∀ x y : Nat, x ≠ y → updateResult M row col status x y = M x y := by
      intro x y hxy
      subst hrc
      have g1 : ¬ (x = row ∧ y = row) := by
        intro hc; exact hxy (by omega)
      simp [updateResult, mset, g1]
    rw [e a b hab, e b a (Ne.symm hab)]
    exact hM a b ha hb hab
  · exact mset_pair_sym M n row col status hM hrc hs

theorem extractGo_sym (b : ByteArr) (tc : Int) (pairs : List (Nat × Nat)) :
    ∀ (cur bit boff : Nat) (M : Mat), (∀ p ∈ pairs, p.1 ≠ p.2) → SymOK M tc →
      SymOK (extractGo b tc pairs cur bit boff M) tc := by
  induction pairs with
  | nil => intro cur bit boff M _ hM; exact hM
  | cons p rest ih =>
    intro cur bit boff M hne hM
    obtain ⟨i, j⟩ := p
    show SymOK (extractGo b tc rest _ _ _ _) tc
    apply ih
    · intro q hq
      exact hne q (List.mem_cons_of_mem _ hq)
    · by_cases hr : (i : Int) < tc ∧ (j : Int) < tc
      · rw [if_pos hr]
        exact mset_pair_sym M tc i j _ hM (hne (i, j) (List.mem_cons_self _ _))
          (Nat.and_le_right)
      · rw [if_neg hr]
        exact hM

theorem symOK_zero (n : Int) : SymOK (fun _ _ => 0) n := by
  intro i j _ _ _
  refine ⟨by simp, by simp, by simp, by simp⟩

theorem extractMatchResults_sym (b : ByteArr) (tc : Int) :
    SymOK (extractMatchResults b tc) tc := by
  show SymOK (if 13640 ≥ b.size then _ else _) tc
  by_cases h : 13640 ≥ b.size
  · rw [if_pos h]; exact symOK_zero tc
  · rw [if_neg h]
    apply extractGo_sym
    · decide
    · exact symOK_zero tc

/-- Claim C9: every matrix the tournament parser produces, and every matrix
reached from it by any sequence of `updateResult`-style mutations (with
in-range statuses), satisfies the symmetry invariant: `M i j = Win ↔ M j i
= Loss`, `M i j = Draw ↔ M j i = Draw`, `M i j = None ↔ M j i = None`, with
every off-diagonal cell in `{0,1,2,3}`. -/
theorem c9_theorem (b : ByteArr) (tc : Int) (muts : List (Nat × Nat × Nat))
    (hm : ∀ m ∈ muts, m.2.2 ≤ 3) :
    SymOK (muts.foldl (fun M m => updateResult M m.1 m.2.1 m.2.2)
      (extractMatchResults b tc)) tc := by
  have base := extractMatchResults_sym b tc
  revert base
  generalize extractMatchResults b tc = M0
  induction muts generalizing M0 with
  | nil => intro h; exact h
  | cons m rest ih =>
    intro hbase
    show SymOK (rest.foldl _ (updateResult M0 m.1 m.2.1 m.2.2)) tc
    apply ih
    · intro q hq
      exact hm q (List.mem_cons_of_mem _ hq)
    · exact updateResult_sym M0 tc m.1 m.2.1 m.2.2 hbase (hm m (List.mem_cons_self _ _))

/-- Claim C9, witness: after parsing an empty buffer (all-None matrix) and
recording a win of team 0 over team 1, the mirror cell reads Loss. -/
theorem c9_witness :
    ([((0 : Nat), (1 : Nat), (1 : Nat))].foldl (fun M m => updateResult M m.1 m.2.1 m.2.2)
        (extractMatchResults ⟨0, fun _ => 0⟩ 2)) 0 1 = 1 ↔
    ([((0 : Nat), (1 : Nat), (1 : Nat))].foldl (fun M m => updateResult M m.1 m.2.1 m.2.2)
        (extractMatchResults ⟨0, fun _ => 0⟩ 2)) 1 0 = 2 :=
  (c9_theorem ⟨0, fun _ => 0⟩ 2 [(0, 1, 1)] (by decide) 0 1 (by decide) (by decide)
    (by decide)).2.1

/-! ## Decoded-string structure lemmas -/

theorem jisToUnicode_ne_zero (row cell u : Nat) (h : jisToUnicode row cell = some u) :
    u ≠ 0 := by
  unfold jisToUnicode at h
  split at h
  · next hc => injection h with h; omega
  · split at h
    · next hc => injection h with h; omega
    · split at h
      · next hc => injection h with h; omega
      · exact absurd h (by simp)

theorem sjisLoPart_ne_zero (row lo u : Nat) (h : sjisLoPart row lo = some u) : u ≠ 0 := by
  unfold sjisLoPart at h
  split at h
  · exact jisToUnicode_ne_zero _ _ _ h
  · split at h
    · exact jisToUnicode_ne_zero _ _ _ h
    · split at h
      · exact jisToUnicode_ne_zero _ _ _ h
      · exact absurd h (by simp)

theorem sjisToUnicode_ne_zero (s u : Nat) (h : sjisToUnicode s = some u) : u ≠ 0 := by
  simp only [sjisToUnicode] at h
  split at h
  · exact sjisLoPart_ne_zero _ _ _ h
  · split at h
    · exact sjisLoPart_ne_zero _ _ _ h
    · exact absurd h (by simp)

theorem toUTF8_no_zero (l : List Nat) : 0 ∉ toUTF8 l := by
  suffices hgen : ∀ (n : Nat) (l : List Nat), l.length = n → 0 ∉ toUTF8 l from
    hgen l.length l rfl
  intro n
  induction n using Nat.strong_induction_on with
  | _ n ih =>
    intro l hn
    match l with
    | [] => simp [toUTF8]
    | [b1] =>
      have he : toUTF8 [b1] =
          if b1 = 0 then []
          else if b1 ≤ 0x7F then [b1]
          else if 0xA1 ≤ b1 ∧ b1 ≤ 0xDF then [0xFF61 + (b1 - 0xA1)]
          else [] := rfl
      rw [he]
      split
      · simp
      · split
        · next h0 h1 => simp; omega
        · split
          · next h0 h1 h2 => simp; omega
          · simp
    | b1 :: b2 :: rest2 =>
      have he : toUTF8 (b1 :: b2 :: rest2) =
          if b1 = 0 then []
          else if b1 ≤ 0x7F then b1 :: toUTF8 (b2 :: rest2)
          else if 0xA1 ≤ b1 ∧ b1 ≤ 0xDF then (0xFF61 + (b1 - 0xA1)) :: toUTF8 (b2 :: rest2)
          else
            match sjisToUnicode (b1 * 256 + b2) with
            | some u => u :: toUTF8 rest2
            | none => 63 :: toUTF8 rest2 := rfl
      have hr1 : 0 ∉ toUTF8 (b2 :: rest2) :=
        ih (b2 :: rest2).length (by subst hn; simp) (b2 :: rest2) rfl
      have hr2 : 0 ∉ toUTF8 rest2 :=
        ih rest2.length (by subst hn; simp; omega) rest2 rfl
      rw [he]
      split
      · simp
      · split
        · next h0 h1 =>
          intro hmem
          rcases List.mem_cons.mp hmem with h | h
          · omega
          · exact hr1 h
        · split
          · next h0 h1 h2 =>
            intro hmem
            rcases List.mem_cons.mp hmem with h | h
            · omega
            · exact hr1 h
          · cases hs : sjisToUnicode (b1 * 256 + b2) with
            | some u =>
              intro hmem
              rcases List.mem_cons.mp hmem with h | h
              · exact sjisToUnicode_ne_zero _ _ hs h.symm
              · exact hr2 h
            | none =>
              intro hmem
              rcases List.mem_cons.mp hmem with h | h
              · omega
              · exact hr2 h

theorem dropWhile_head_not (p : Nat → Bool) (l : List Nat) (c : Nat)
    (h : (l.dropWhile p).head? = some c) : p c = false := by
  induction l with
  | nil => simp [List.dropWhile] at h
  | cons a rest ih =>
    rw [List.dropWhile_cons] at h
    by_cases hp : p a
    · rw [if_pos hp] at h
      exact ih h
    · rw [if_neg hp] at h
      simp at h
      subst h
      simpa using hp

theorem dropWhile_getLast (p : Nat → Bool) (l : List Nat)
    (h : l.dropWhile p ≠ []) : (l.dropWhile p).getLast? = l.getLast? := by
  induction l with
  | nil => simp [List.dropWhile] at h
  | cons a rest ih =>
    rw [List.dropWhile_cons]
    rw [List.dropWhile_cons] at h
    by_cases hp : p a
    · rw [if_pos hp] at h ⊢
      have hrest : rest ≠ [] := by
        intro hcontra
        subst hcontra
        simp [List.dropWhile] at h
      rw [ih h]
      match rest, hrest with
      | b :: rs, _ => rw [List.getLast?_cons_cons]
    · rw [if_neg hp]

theorem jsTrim_head_not (l : List Nat) (c : Nat) (h : (jsTrim l).head? = some c) :
    jsWsB c = false := by
  unfold jsTrim at h
  rw [List.head?_reverse] at h
  have hne : (l.dropWhile jsWsB).reverse.dropWhile jsWsB ≠ [] := by
    intro hcontra
    rw [hcontra] at h
    simp at h
  rw [dropWhile_getLast _ _ hne, List.getLast?_reverse] at h
  exact dropWhile_head_not _ _ _ h

theorem jsTrim_getLast_not (l : List Nat) (c : Nat) (h : (jsTrim l).getLast? = some c) :
    jsWsB c = false := by
  unfold jsTrim at h
  rw [List.getLast?_reverse] at h
  exact dropWhile_head_not _ _ _ h

theorem jsTrim_subset (l : List Nat) : jsTrim l ⊆ l := by
  unfold jsTrim
  intro c hc
  rw [List.mem_reverse] at hc
  have h1 := (List.dropWhile_sublist (l := (l.dropWhile jsWsB).reverse) jsWsB).subset hc
  rw [List.mem_reverse] at h1
  exact (List.dropWhile_sublist jsWsB).subset h1

theorem nulCut_of_no_zero (l : List Nat) (h : 0 ∉ l) : nulCut l = l := by
  induction l with
  | nil => rfl
  | cons a rest ih =>
    rw [nulCut]
    have ha : a ≠ 0 := by
      intro hcontra
      exact h (by simp [hcontra])
    rw [if_neg (by intro hc; exact ha hc.1)]
    rw [ih (by intro hc; exact h (List.mem_cons_of_mem _ hc))]

/-! ## Claim C10 -/

/-- Claim C10: every string `readSJISString` produces contains no NUL
character (the decoder terminates at a zero byte, so the NUL-tail
replacement never fires) and carries no leading or trailing ASCII
whitespace (the result is trim-fixed). -/
theorem c10_theorem (b : ByteArr) (offset len : Nat) :
    (∀ c ∈ readSJISString b offset len, c ≠ 0) ∧
    (∀ c, (readSJISString b offset len).head? = some c → ¬(c = 32 ∨ (9 ≤ c ∧ c ≤ 13))) ∧
    (∀ c, (readSJISString b offset len).getLast? = some c → ¬(c = 32 ∨ (9 ≤ c ∧ c ≤ 13))) := by
  have key : readSJISString b offset len = [] ∨
      ∃ str : List Nat, 0 ∉ str ∧ readSJISString b offset len = jsTrim str := by
    simp only [readSJISString]
    split
    · left; rfl
    · split
      · left; rfl
      · split
        · left; rfl
        · right
          refine ⟨toUTF8 (baToList (baSlice b (skipPad b (offset + len) len offset)
            (offset + len))), toUTF8_no_zero _, ?_⟩
          rw [nulCut_of_no_zero]
          intro hmem
          exact toUTF8_no_zero _ (jsTrim_subset _ hmem)
  rcases key with h | ⟨str, hnz, heq⟩
  · rw [h]
    refine ⟨by simp, by simp, by simp⟩
  · rw [heq]
    refine ⟨?_, ?_, ?_⟩
    · intro c hc hc0
      subst hc0
      exact hnz (jsTrim_subset _ hc)
    · intro c hc hws
      have hfalse := jsTrim_head_not str c hc
      rw [jsWsB, decide_eq_false_iff_not] at hfalse
      rcases hws with h | h
      · exact hfalse (Or.inl h)
      · exact hfalse (Or.inr (Or.inl h))
    · intro c hc hws
      have hfalse := jsTrim_getLast_not str c hc
      rw [jsWsB, decide_eq_false_iff_not] at hfalse
      rcases hws with h | h
      · exact hfalse (Or.inl h)
      · exact hfalse (Or.inr (Or.inl h))

/-- Claim C10, witness: a field whose stored bytes are a space, then `A`,
then NUL padding parses to the string `"A"`, whose head is not
whitespace. -/
theorem c10_witness :
    ¬((65 : Nat) = 32 ∨ (9 ≤ (65 : Nat) ∧ (65 : Nat) ≤ 13)) :=
  (c10_theorem ⟨4, fun i => if i = 0 then 32 else if i = 1 then 65 else 0⟩ 0 4).2.1 65
    (by decide)

/-! ## Claim C8 -/

theorem skipPad_all (b : ByteArr) (stop : Nat) : ∀ (f start : Nat),
    (∀ x, start ≤ x → x < stop → x < b.size → (b.get x = 0 ∨ b.get x = 0xFF)) →
    stop ≤ start + f →
    stop ≤ skipPad b stop f start ∨ b.size ≤ skipPad b stop f start := by
  intro f
  induction f with
  | zero =>
    intro start _ hle
    left
    show stop ≤ start
    omega
  | succ f ih =>
    intro start h hle
    show stop ≤ (if start < stop ∧ start < b.size ∧ (b.get start = 0 ∨ b.get start = 0xFF)
        then skipPad b stop f (start + 1) else start) ∨
      b.size ≤ (if start < stop ∧ start < b.size ∧ (b.get start = 0 ∨ b.get start = 0xFF)
        then skipPad b stop f (start + 1) else start)
    by_cases hc : start < stop ∧ start < b.size ∧ (b.get start = 0 ∨ b.get start = 0xFF)
    · rw [if_pos hc]
      exact ih (start + 1) (fun x hx1 hx2 hx3 => h x (by omega) hx2 hx3) (by omega)
    · rw [if_neg hc]
      by_cases h1 : start < stop
      · by_cases h2 : start < b.size
        · exact absurd ⟨h1, h2, h start (le_refl start) h1 h2⟩ hc
        · right; omega
      · left; omega

/-- Claim C8, counterexample: the 24-byte field holding `"Red Team"` padded
with `0xFF` does NOT decode to `"Red Team"` — only leading padding is
skipped, so the eight trailing `0xFF` pairs decode to eight substitution
characters. -/
theorem c8_counterexample :
    readSJISString
        ⟨24, fun i => if i < 8 then [82, 101, 100, 32, 84, 101, 97, 109].getD i 0 else 0xFF⟩
        0 24 ≠ [82, 101, 100, 32, 84, 101, 97, 109] ∧
    readSJISString
        ⟨24, fun i => if i < 8 then [82, 101, 100, 32, 84, 101, 97, 109].getD i 0 else 0xFF⟩
        0 24 = [82, 101, 100, 32, 84, 101, 97, 109, 63, 63, 63, 63, 63, 63, 63, 63] := by
  refine ⟨by decide, by decide⟩

/-- Claim C8 (amended): the fixed-width reader skips leading `0x00`/`0xFF`
padding and an all-padding span decodes to the empty string; an embedded
NUL truncates the decoded span; but trailing `0xFF` padding is NOT
stripped: the `"Red Team"` field padded with `0xFF` decodes to `"Red Team"`
followed by eight substitution characters, and re-encoding then re-decoding
that string yields the identical string. -/
theorem c8_theorem :
    (∀ (b : ByteArr) (offset len : Nat),
       (∀ x, offset ≤ x → x < offset + len → x < b.size →
         (b.get x = 0 ∨ b.get x = 0xFF)) →
       readSJISString b offset len = []) ∧
    readSJISString
        ⟨24, fun i => if i < 8 then [82, 101, 100, 32, 84, 101, 97, 109].getD i 0 else 0xFF⟩
        0 24 = [82, 101, 100, 32, 84, 101, 97, 109, 63, 63, 63, 63, 63, 63, 63, 63] ∧
    readSJISString
        ⟨24, fun i => if i = 0 then 0 else if i = 1 then 0xFF else
          if i = 2 then 65 else if i = 3 then 66 else if i = 4 then 0 else 67⟩
        0 24 = [65, 66] ∧
    toUTF8 (toSJIS [82, 101, 100, 32, 84, 101, 97, 109, 63, 63, 63, 63, 63, 63, 63, 63]) =
      [82, 101, 100, 32, 84, 101, 97, 109, 63, 63, 63, 63, 63, 63, 63, 63] := by
  refine ⟨?_, by decide, by decide, by decide⟩
  intro b offset len hpad
  simp only [readSJISString]
  split
  · rfl
  · split
    · rfl
    · next hno =>
      exfalso
      rcases skipPad_all b (offset + len) len offset
          (fun x hx1 hx2 hx3 => hpad x hx1 hx2 hx3) (by omega) with h | h
      · exact hno (Or.inl h)
      · exact hno (Or.inr h)

/-- Claim C8, witness: an all-`0xFF` span decodes to the empty string. -/
theorem c8_witness : readSJISString ⟨4, fun _ => 0xFF⟩ 0 4 = [] :=
  c8_theorem.1 ⟨4, fun _ => 0xFF⟩ 0 4 (fun _ _ _ _ => Or.inr rfl)

/-! ## Claim C4 -/

/-- Claim C4, counterexample: a tournament buffer declaring one team whose
slot is entirely zero bytes yields a parsed Team whose name is the EMPTY
string — `parseMatchFile` does not reject empty/padding-only names. -/
theorem c4_counterexample :
    ((parseMatchFile ⟨1992, fun i => if i < 4 then [67, 69, 77, 68].getD i 0 else
        if i = 52 then 1 else 0⟩).teams.map Team.name) = [[]] := by
  decide

/-- Claim C4 (amended): `parseTeamFile` never constructs a Team with an
empty (or blank) name — the rejection happens inside the team-file parser;
the tournament parser `parseMatchFile` does NOT share this invariant: it
constructs Teams unconditionally, an empty/padding-only name region
yielding a Team whose name is the empty string. -/
theorem c4_theorem (b : ByteArr) (t : Team) (ht : t ∈ (parseTeamFile b).teams) :
    t.name ≠ [] ∧ jsTrim t.name ≠ [] := by
  revert ht
  show t ∈ (if readSJISString b 0x280 24 ≠ [] ∧ jsTrim (readSJISString b 0x280 24) ≠ [] then
    [{ name := readSJISString b 0x280 24, owner := readSJISString b 0x298 24,
       colors := paletteAt b 0x240,
       primaryColor := (paletteAt b 0x240).getD 1 ((paletteAt b 0x240).getD 0 defaultColor),
       rawBuffer := some b, isMatchDerived := false, okeBlocks := [] }] else []) → _
  split
  · next hcond =>
    intro ht
    rcases List.mem_singleton.mp ht with rfl
    exact hcond
  · intro ht
    exact absurd ht (List.not_mem_nil t)

/-- Claim C4, witness: a team file whose name field holds `"A"` parses to
one team, and that team's name is non-empty and non-blank. -/
theorem c4_witness :
    (let cb : ByteArr := ⟨688, fun i => if i = 640 then 65 else 0⟩
     let t : Team := { name := readSJISString cb 0x280 24,
                       owner := readSJISString cb 0x298 24,
                       colors := paletteAt cb 0x240,
                       primaryColor := (paletteAt cb 0x240).getD 1
                         ((paletteAt cb 0x240).getD 0 defaultColor),
                       rawBuffer := some cb, isMatchDerived := false, okeBlocks := [] }
     t.name ≠ [] ∧ jsTrim t.name ≠ []) :=
  c4_theorem ⟨688, fun i => if i = 640 then 65 else 0⟩ _ (List.Mem.head _)

/-! ## Relocation-state invariants -/

theorem relocStep_st_cases (bs : Buf × GenSt) (blk : OkeBlk) :
    (relocStep bs blk).2 = bs.2 ∨
    ((bs.2.imap blk.originalIndex).isNone ∧ bs.2.nextIdx < 31 ∧
      (relocStep bs blk).2 = ⟨bs.2.nextIdx + 1,
        fun x => if x = blk.originalIndex then some bs.2.nextIdx else bs.2.imap x,
        bs.2.placed ++ [(blk.originalIndex, bs.2.nextIdx)]⟩) := by
  simp only [relocStep]
  by_cases h1 : (bs.2.imap blk.originalIndex).isSome
  · rw [if_pos h1]; left; rfl
  · rw [if_neg h1]
    by_cases h2 : bs.2.nextIdx < 31
    · rw [if_pos h2, if_neg (by omega)]
      right
      exact ⟨Option.not_isSome_iff_eq_none.mp h1 ▸ rfl, h2, rfl⟩
    · rw [if_neg h2]; left; rfl

theorem relocStep_stInv (bs : Buf × GenSt) (blk : OkeBlk) (h : StInv bs.2) :
    StInv (relocStep bs blk).2 := by
  rcases relocStep_st_cases bs blk with he | ⟨hnone, hlt, he⟩
  · rw [he]; exact h
  · rw [he]
    obtain ⟨h1, h2, h3, h4⟩ := h
    have hnotmem : blk.originalIndex ∉ bs.2.placed.map Prod.fst := by
      intro hmem
      rw [← h4] at hmem
      rw [Option.isNone_iff_eq_none] at hnone
      rw [hnone] at hmem
      simp at hmem
    unfold StInv
    dsimp only
    refine ⟨by omega, by simp [h2], ?_, ?_⟩
    · simp only [List.map_append, List.map_cons, List.map_nil]
      rw [List.nodup_append]
      refine ⟨h3, List.nodup_singleton _, ?_⟩
      intro a ha hb
      simp at hb
      subst hb
      exact hnotmem ha
    · intro o
      simp only [List.map_append, List.map_cons, List.map_nil, List.mem_append,
        List.mem_singleton]
      by_cases ho : o = blk.originalIndex
      · subst ho
        simp
      · rw [if_neg ho]
        rw [h4 o]
        simp [ho]

theorem relocStep_mono (bs : Buf × GenSt) (blk : OkeBlk) (o : Int) (n : Nat)
    (h : bs.2.imap o = some n) : (relocStep bs blk).2.imap o = some n := by
  rcases relocStep_st_cases bs blk with he | ⟨hnone, _, he⟩
  · rw [he]; exact h
  · rw [he]
    simp only
    by_cases ho : o = blk.originalIndex
    · subst ho
      rw [Option.isNone_iff_eq_none] at hnone
      rw [hnone] at h
      exact absurd h (by simp)
    · rw [if_neg ho]; exact h

theorem relocBlocks_stInv (blks : List OkeBlk) : ∀ (b : Buf) (st : GenSt), StInv st →
    StInv (relocBlocks b st blks).2 := by
  induction blks with
  | nil => intro b st h; exact h
  | cons blk rest ih =>
    intro b st h
    show StInv (List.foldl relocStep (relocStep (b, st) blk) rest).2
    have := ih (relocStep (b, st) blk).1 (relocStep (b, st) blk).2
      (relocStep_stInv (b, st) blk h)
    simpa [relocBlocks] using this

theorem relocBlocks_mono (blks : List OkeBlk) : ∀ (b : Buf) (st : GenSt) (o : Int) (n : Nat),
    st.imap o = some n → (relocBlocks b st blks).2.imap o = some n := by
  induction blks with
  | nil => intro b st o n h; exact h
  | cons blk rest ih =>
    intro b st o n h
    show (List.foldl relocStep (relocStep (b, st) blk) rest).2.imap o = some n
    have := ih (relocStep (b, st) blk).1 (relocStep (b, st) blk).2 o n
      (relocStep_mono (b, st) blk o n h)
    simpa [relocBlocks] using this

theorem processTeam_st_reloc (bs : Buf × GenSt) (idx : Nat) (t : Team) :
    (processTeam bs idx t).2 = bs.2 ∨
    ∃ r b1, t.rawBuffer = some r ∧
      (processTeam bs idx t).2 = (relocBlocks b1 bs.2 t.okeBlocks).2 := by
  simp only [processTeam]
  by_cases hov : 1160 + idx * 832 + 832 > 266232
  · rw [if_pos hov]; left; rfl
  · rw [if_neg hov]
    by_cases hmd : t.isMatchDerived
    · rw [if_pos hmd]
      cases hr : t.rawBuffer with
      | none => left; rfl
      | some r =>
        simp only
        by_cases hob : t.okeBlocks.length = 0
        · rw [if_pos hob]; left; rfl
        · rw [if_neg hob]
          right
          exact ⟨r, cpy bs.1 (1160 + idx * 832) r 0 832, rfl, rfl⟩
    · rw [if_neg hmd]
      cases hr : t.rawBuffer with
      | none => left; rfl
      | some r => left; rfl

theorem processTeam_stInv (bs : Buf × GenSt) (idx : Nat) (t : Team) (h : StInv bs.2) :
    StInv (processTeam bs idx t).2 := by
  rcases processTeam_st_reloc bs idx t with he | ⟨r, b1, _, he⟩
  · rw [he]; exact h
  · rw [he]; exact relocBlocks_stInv _ _ _ h

theorem processTeam_mono (bs : Buf × GenSt) (idx : Nat) (t : Team) (o : Int) (n : Nat)
    (h : bs.2.imap o = some n) : (processTeam bs idx t).2.imap o = some n := by
  rcases processTeam_st_reloc bs idx t with he | ⟨r, b1, _, he⟩
  · rw [he]; exact h
  · rw [he]; exact relocBlocks_mono _ _ _ o n h

theorem slotsGo_stInv (ts : List Team) : ∀ (bs : Buf × GenSt) (idx : Nat), StInv bs.2 →
    StInv (slotsGo bs idx ts).2 := by
  induction ts with
  | nil => intro bs idx h; exact h
  | cons t rest ih =>
    intro bs idx h
    exact ih (processTeam bs idx t) (idx + 1) (processTeam_stInv bs idx t h)

theorem slotsGo_mono (ts : List Team) : ∀ (bs : Buf × GenSt) (idx : Nat) (o : Int) (n : Nat),
    bs.2.imap o = some n → (slotsGo bs idx ts).2.imap o = some n := by
  induction ts with
  | nil => intro bs idx o n h; exact h
  | cons t rest ih =>
    intro bs idx o n h
    exact ih (processTeam bs idx t) (idx + 1) o n (processTeam_mono bs idx t o n h)

theorem initGenSt_stInv : StInv initGenSt := by
  unfold StInv initGenSt
  dsimp only
  refine ⟨by omega, rfl, List.nodup_nil, ?_⟩
  intro o
  simp

/-! ## Slot-level value lemmas -/

theorem headerBuf_out (tmpl : ByteArr) (teams : List Team) (tname : List Nat) (x : Nat)
    (hx : 396 ≤ x) : headerBuf tmpl teams tname x = baseBuf tmpl x := by
  simp only [headerBuf]
  have h16 : (List.take 16 (toSJIS tname)).length ≤ 16 := by rw [List.length_take]; omega
  have h24 : (List.take 24 (toSJIS tname)).length ≤ 24 := by rw [List.length_take]; omega
  rw [wr32_out _ _ _ _ (by omega), wr32_out _ _ _ _ (by omega),
    wr32_out _ _ _ _ (by omega), wr32_out _ _ _ _ (by omega),
    writeList_out _ _ _ _ (by omega), zeroRange_out _ _ _ _ (by omega),
    writeList_out _ _ _ _ (by omega), zeroRange_out _ _ _ _ (by omega)]

theorem getUint32_eq_rd32BA (b : Buf) (off : Nat) (r : ByteArr) (so : Nat)
    (h : ∀ k, k < 4 → b (off + k) = r.get (so + k)) : getUint32 b off = rd32BA r so := by
  have h0 := h 0 (by omega)
  have h1 := h 1 (by omega)
  have h2 := h 2 (by omega)
  have h3 := h 3 (by omega)
  simp only [Nat.add_zero] at h0
  show b off + 256 * b (off + 1) + 65536 * b (off + 2) + 16777216 * b (off + 3) = _
  rw [h0, h1, h2, h3]
  rfl

theorem processTeam_match_eq (bs : Buf × GenSt) (idx : Nat) (t : Team) (r : ByteArr)
    (hmd : t.isMatchDerived = true) (hraw : t.rawBuffer = some r)
    (hidx : idx ≤ 15) (hblk : t.okeBlocks ≠ []) :
    processTeam bs idx t =
      (rewriteRefs (relocBlocks (cpy bs.1 (1160 + idx * 832) r 0 832) bs.2 t.okeBlocks).1
          (relocBlocks (cpy bs.1 (1160 + idx * 832) r 0 832) bs.2 t.okeBlocks).2.imap
          (1160 + idx * 832),
        (relocBlocks (cpy bs.1 (1160 + idx * 832) r 0 832) bs.2 t.okeBlocks).2) := by
  simp only [processTeam, hmd, hraw]
  rw [if_neg (by omega), if_pos trivial, if_neg (by rw [List.length_eq_zero]; exact hblk)]

theorem processTeam_teamfile_eq (bs : Buf × GenSt) (idx : Nat) (t : Team) (r : ByteArr)
    (hmd : t.isMatchDerived = false) (hraw : t.rawBuffer = some r) (hidx : idx ≤ 15) :
    processTeam bs idx t =
      (okeInit (copyMapW bs.1 (1160 + idx * 832) r) (1160 + idx * 832), bs.2) := by
  simp only [processTeam, hmd, hraw]
  rw [if_neg (by omega)]
  simp

theorem gen_eq_after_team (tmpl : ByteArr) (teams : List Team) (tname : List Nat)
    (pre post : List Team) (t : Team)
    (hdecomp : teams.take 16 = pre ++ t :: post) (x : Nat)
    (hx1 : 1160 + pre.length * 832 ≤ x) (hx2 : x < 1160 + pre.length * 832 + 832)
    (hi : pre.length ≤ 15)
    (hres : x < 13640 ∨ 13667 ≤ x) :
    generateMatchFile tmpl teams tname x =
      (processTeam (slotsGo (headerBuf tmpl teams tname, initGenSt) 0 pre) pre.length t).1 x := by
  simp only [generateMatchFile, generateMatchFileCore]
  rw [hdecomp, slotsGo_append]
  show resultsPhase (slotsGo (processTeam _ _ t) _ post).1 x = _
  rw [resultsPhase_out _ _ hres]
  rw [slotsGo_buf_out post _ _ x (by omega) ?_]
  · simp
  · intro j hj1 hj2
    simp at hj1
    left
    omega

theorem preBuf_eq_header (tmpl : ByteArr) (teams : List Team) (tname : List Nat)
    (pre : List Team) (x : Nat) (hx1 : 1160 + pre.length * 832 ≤ x) (hx2 : x < 14524) :
    (slotsGo (headerBuf tmpl teams tname, initGenSt) 0 pre).1 x =
      headerBuf tmpl teams tname x := by
  rw [slotsGo_buf_out pre _ _ x hx2 ?_]
  intro j hj1 hj2
  simp at hj2
  right
  omega

/-! ## Map-value bound invariant -/

theorem relocStep_stBound (bs : Buf × GenSt) (blk : OkeBlk) (h : StBound bs.2) :
    StBound (relocStep bs blk).2 := by
  rcases relocStep_st_cases bs blk with he | ⟨_, hlt, he⟩
  · rw [he]; exact h
  · rw [he]
    intro o n hmap
    simp only at hmap
    by_cases ho : o = blk.originalIndex
    · rw [if_pos ho] at hmap
      injection hmap with hmap
      omega
    · rw [if_neg ho] at hmap
      exact h o n hmap

theorem relocBlocks_stBound (blks : List OkeBlk) : ∀ (b : Buf) (st : GenSt), StBound st →
    StBound (relocBlocks b st blks).2 := by
  induction blks with
  | nil => intro b st h; exact h
  | cons blk rest ih =>
    intro b st h
    show StBound (List.foldl relocStep (relocStep (b, st) blk) rest).2
    have := ih (relocStep (b, st) blk).1 (relocStep (b, st) blk).2
      (relocStep_stBound (b, st) blk h)
    simpa [relocBlocks] using this

theorem processTeam_stBound (bs : Buf × GenSt) (idx : Nat) (t : Team) (h : StBound bs.2) :
    StBound (processTeam bs idx t).2 := by
  rcases processTeam_st_reloc bs idx t with he | ⟨r, b1, _, he⟩
  · rw [he]; exact h
  · rw [he]; exact relocBlocks_stBound _ _ _ h

theorem slotsGo_stBound (ts : List Team) : ∀ (bs : Buf × GenSt) (idx : Nat), StBound bs.2 →
    StBound (slotsGo bs idx ts).2 := by
  induction ts with
  | nil => intro bs idx h; exact h
  | cons t rest ih =>
    intro bs idx h
    exact ih (processTeam bs idx t) (idx + 1) (processTeam_stBound bs idx t h)

theorem initGenSt_stBound : StBound initGenSt := by
  intro o n h
  simp [initGenSt] at h

/-! ## Block-reference entry evaluation -/

theorem rewriteRef_eval_some (b : Buf) (im : Int → Option Nat) (slot n o nw : Nat)
    (hro : getUint32 b (slot + 184 + n * 48) = o) (ho : o < 31)
    (hsome : im (o : Int) = some nw) :
    rewriteRef b im slot n = wr32 b (slot + 184 + n * 48) nw := by
  simp only [rewriteRef]
  rw [hro, if_pos ho, hsome]

theorem rewriteRef_eval_none (b : Buf) (im : Int → Option Nat) (slot n o : Nat)
    (hro : getUint32 b (slot + 184 + n * 48) = o) (ho : o < 31)
    (hnone : im (o : Int) = none) :
    rewriteRef b im slot n = b := by
  simp only [rewriteRef]
  rw [hro, if_pos ho, hnone]

theorem getUint32_rewriteRef_out (b : Buf) (im : Int → Option Nat) (slot n : Nat) (off : Nat)
    (h : off + 4 ≤ slot + 184 + n * 48 ∨ slot + 184 + n * 48 + 4 ≤ off) :
    getUint32 (rewriteRef b im slot n) off = getUint32 b off := by
  apply getUint32_congr
  intro k hk
  exact rewriteRef_out _ _ _ _ _ (by omega)

theorem getUint32_wr32_out (b : Buf) (o v : Nat) (off : Nat)
    (h : off + 4 ≤ o ∨ o + 4 ≤ off) :
    getUint32 (wr32 b o v) off = getUint32 b off := by
  apply getUint32_congr
  intro k hk
  exact wr32_out _ _ _ _ (by omega)

/-- After a rewrite pass over the three entries, the entry that held a live
index `o` reads the mapped index when `o` is mapped, and still reads `o`
when it is not. -/
theorem rewriteRefs_entry_value (b : Buf) (im : Int → Option Nat) (slot : Nat) (e o : Nat)
    (he : e < 3) (ho : o < 31)
    (hro : getUint32 b (slot + 184 + e * 48) = o) :
    (∀ nw, nw < 31 → im (o : Int) = some nw →
      getUint32 (rewriteRefs b im slot) (slot + 184 + e * 48) = nw) ∧
    (im (o : Int) = none →
      getUint32 (rewriteRefs b im slot) (slot + 184 + e * 48) = getUint32 b (slot + 184 + e * 48)) := by
  unfold rewriteRefs
  constructor
  · intro nw hnw hsome
    interval_cases e
    · rw [rewriteRef_eval_some b im slot 0 o nw hro ho hsome,
        getUint32_rewriteRef_out _ _ _ _ _ (by omega),
        getUint32_rewriteRef_out _ _ _ _ _ (by omega),
        getUint32_wr32 _ _ _ (by omega)]
    · have h0 : getUint32 (rewriteRef b im slot 0) (slot + 184 + 1 * 48) =
          getUint32 b (slot + 184 + 1 * 48) :=
        getUint32_rewriteRef_out _ _ _ _ _ (by omega)
      rw [rewriteRef_eval_some (rewriteRef b im slot 0) im slot 1 o nw (by rw [h0]; exact hro)
          ho hsome,
        getUint32_rewriteRef_out _ _ _ _ _ (by omega),
        getUint32_wr32 _ _ _ (by omega)]
    · have h0 : getUint32 (rewriteRef (rewriteRef b im slot 0) im slot 1) (slot + 184 + 2 * 48) =
          getUint32 b (slot + 184 + 2 * 48) := by
        rw [getUint32_rewriteRef_out _ _ _ _ _ (by omega),
          getUint32_rewriteRef_out _ _ _ _ _ (by omega)]
      rw [rewriteRef_eval_some (rewriteRef (rewriteRef b im slot 0) im slot 1) im slot 2 o nw
          (by rw [h0]; exact hro) ho hsome,
        getUint32_wr32 _ _ _ (by omega)]
  · intro hnone
    interval_cases e
    · rw [rewriteRef_eval_none b im slot 0 o hro ho hnone,
        getUint32_rewriteRef_out _ _ _ _ _ (by omega),
        getUint32_rewriteRef_out _ _ _ _ _ (by omega)]
    · have h0 : getUint32 (rewriteRef b im slot 0) (slot + 184 + 1 * 48) =
          getUint32 b (slot + 184 + 1 * 48) :=
        getUint32_rewriteRef_out _ _ _ _ _ (by omega)
      rw [rewriteRef_eval_none (rewriteRef b im slot 0) im slot 1 o (by rw [h0]; exact hro)
          ho hnone,
        getUint32_rewriteRef_out _ _ _ _ _ (by omega), h0]
    · have h0 : getUint32 (rewriteRef (rewriteRef b im slot 0) im slot 1) (slot + 184 + 2 * 48) =
          getUint32 b (slot + 184 + 2 * 48) := by
        rw [getUint32_rewriteRef_out _ _ _ _ _ (by omega),
          getUint32_rewriteRef_out _ _ _ _ _ (by omega)]
      rw [rewriteRef_eval_none (rewriteRef (rewriteRef b im slot 0) im slot 1) im slot 2 o
          (by rw [h0]; exact hro) ho hnone, h0]

/-- Final value of one block-reference entry of a tournament-origin team's
slot: if the original index the raw slot held is mapped by the end of this
team's relocation, the output entry reads the mapped index; if it is never
mapped, the output entry still reads the stale original index. -/
theorem matchSlot_entry (tmpl : ByteArr) (teams : List Team) (tname : List Nat)
    (pre post : List Team) (t : Team) (r : ByteArr)
    (hdecomp : teams.take 16 = pre ++ t :: post)
    (hmd : t.isMatchDerived = true) (hraw : t.rawBuffer = some r)
    (hsize : 832 ≤ r.size) (hbytes : ∀ k, r.get k < 256)
    (hblk : t.okeBlocks ≠ [])
    (e o : Nat) (he : e < 3) (ho : o < 31)
    (hold : rd32BA r (184 + e * 48) = o) :
    ∀ P Q : Buf × GenSt,
      P = slotsGo (headerBuf tmpl teams tname, initGenSt) 0 pre →
      Q = relocBlocks (cpy P.1 (1160 + pre.length * 832) r 0 832) P.2 t.okeBlocks →
      (∀ n, Q.2.imap (o : Int) = some n →
        getUint32 (generateMatchFile tmpl teams tname)
          (1160 + pre.length * 832 + 184 + e * 48) = n) ∧
      (Q.2.imap (o : Int) = none →
        getUint32 (generateMatchFile tmpl teams tname)
          (1160 + pre.length * 832 + 184 + e * 48) = o) := by
  intro P Q hPdef hQdef
  have hi : pre.length ≤ 15 := by
    have h1 : (teams.take 16).length ≤ 16 := List.length_take_le 16 teams
    rw [hdecomp] at h1
    simp at h1
    omega
  have hPe := processTeam_match_eq P pre.length t r hmd hraw hi hblk
  have hgenc : getUint32 (generateMatchFile tmpl teams tname)
      (1160 + pre.length * 832 + 184 + e * 48) =
      getUint32 (processTeam P pre.length t).1 (1160 + pre.length * 832 + 184 + e * 48) := by
    apply getUint32_congr
    intro k hk
    rw [hPdef]
    exact gen_eq_after_team tmpl teams tname pre post t hdecomp _ (by omega) (by omega) hi
      (by omega)
  have hQ1 : (processTeam P pre.length t).1 = rewriteRefs Q.1 Q.2.imap
      (1160 + pre.length * 832) := by
    rw [hPe, hQdef]
  have hQbytes : ∀ k, k < 4 →
      Q.1 (1160 + pre.length * 832 + 184 + e * 48 + k) = r.get (184 + e * 48 + k) := by
    intro k hk
    rw [hQdef]
    rw [relocBlocks_buf_out _ _ _ _ (by omega)]
    have hx : 1160 + pre.length * 832 + 184 + e * 48 + k =
        1160 + pre.length * 832 + (184 + e * 48 + k) := by omega
    rw [hx, cpy_at _ _ _ _ _ _ (by omega) (by omega), Nat.zero_add,
      Nat.mod_eq_of_lt (hbytes _)]
  have hQ32 : getUint32 Q.1 (1160 + pre.length * 832 + 184 + e * 48) = o := by
    rw [getUint32_eq_rd32BA Q.1 _ r (184 + e * 48) (fun k hk => by
      have hx : 1160 + pre.length * 832 + 184 + e * 48 + k =
          1160 + pre.length * 832 + 184 + e * 48 + k := rfl
      exact hQbytes k hk)]
    exact hold
  have hB : StBound Q.2 := by
    rw [hQdef]
    exact relocBlocks_stBound _ _ _ (by
      rw [hPdef]
      exact slotsGo_stBound _ _ _ initGenSt_stBound)
  have hrre := rewriteRefs_entry_value Q.1 Q.2.imap (1160 + pre.length * 832) e o he ho hQ32
  constructor
  · intro n hsome
    rw [hgenc, hQ1]
    exact hrre.1 n (hB _ _ hsome) hsome
  · intro hnone
    rw [hgenc, hQ1]
    rw [hrre.2 hnone]
    exact hQ32

/-! ## Capacity lemmas: when at most 31 distinct indices occur, every block
is mapped -/

theorem relocStep_placed_sub (bs : Buf × GenSt) (blk : OkeBlk) (A : List Int)
    (hPl : ∀ p ∈ bs.2.placed, p.1 ∈ A) (hBl : blk.originalIndex ∈ A) :
    ∀ p ∈ (relocStep bs blk).2.placed, p.1 ∈ A := by
  rcases relocStep_st_cases bs blk with he | ⟨_, _, he⟩
  · rw [he]; exact hPl
  · rw [he]
    intro p hp
    simp only [List.mem_append, List.mem_singleton] at hp
    rcases hp with h | h
    · exact hPl p h
    · subst h; exact hBl

theorem relocStep_maps (b : Buf) (st : GenSt) (blk : OkeBlk) (A : List Int)
    (hInv : StInv st) (hPl : ∀ p ∈ st.placed, p.1 ∈ A) (hBl : blk.originalIndex ∈ A)
    (hA : A.dedup.length ≤ 31) :
    ((relocStep (b, st) blk).2.imap blk.originalIndex).isSome := by
  simp only [relocStep]
  by_cases h1 : (st.imap blk.originalIndex).isSome
  · rw [if_pos h1]; exact h1
  · rw [if_neg h1]
    by_cases h2 : st.nextIdx < 31
    · rw [if_pos h2, if_neg (by omega)]
      simp
    · exfalso
      obtain ⟨hn31, hlen, hnodup, hiff⟩ := hInv
      have hnotmem : blk.originalIndex ∉ st.placed.map Prod.fst := by
        intro hm
        exact h1 ((hiff _).mpr hm)
      have hsub : (blk.originalIndex :: st.placed.map Prod.fst) ⊆ A.dedup := by
        intro x hx
        rw [List.mem_dedup]
        rcases List.mem_cons.mp hx with h | h
        · subst h; exact hBl
        · obtain ⟨p, hp, hpe⟩ := List.mem_map.mp h
          subst hpe
          exact hPl p hp
      have hnd : (blk.originalIndex :: st.placed.map Prod.fst).Nodup :=
        List.nodup_cons.mpr ⟨hnotmem, hnodup⟩
      have hle := (hnd.subperm hsub).length_le
      simp only [List.length_cons, List.length_map] at hle
      omega

theorem relocBlocks_maps (blks : List OkeBlk) : ∀ (b : Buf) (st : GenSt) (A : List Int),
    StInv st → (∀ p ∈ st.placed, p.1 ∈ A) → (∀ blk ∈ blks, blk.originalIndex ∈ A) →
    A.dedup.length ≤ 31 →
    (∀ p ∈ (relocBlocks b st blks).2.placed, p.1 ∈ A) ∧
    (∀ blk ∈ blks, ((relocBlocks b st blks).2.imap blk.originalIndex).isSome) := by
  induction blks with
  | nil =>
    intro b st A _ hPl _ _
    exact ⟨hPl, by simp⟩
  | cons blk rest ih =>
    intro b st A hInv hPl hBl hA
    have hfold : relocBlocks b st (blk :: rest) =
        relocBlocks (relocStep (b, st) blk).1 (relocStep (b, st) blk).2 rest := by
      simp [relocBlocks]
    rw [hfold]
    have hInv2 := relocStep_stInv (b, st) blk hInv
    have hPl2 := relocStep_placed_sub (b, st) blk A hPl (hBl blk (List.mem_cons_self _ _))
    have hBl2 : ∀ q ∈ rest, q.originalIndex ∈ A :=
      fun q hq => hBl q (List.mem_cons_of_mem _ hq)
    obtain ⟨ha, hb⟩ := ih (relocStep (b, st) blk).1 (relocStep (b, st) blk).2 A hInv2 hPl2
      hBl2 hA
    refine ⟨ha, ?_⟩
    intro q hq
    rcases List.mem_cons.mp hq with h | h
    · subst h
      have hstep := relocStep_maps b st q A hInv hPl (hBl q (List.mem_cons_self _ _)) hA
      obtain ⟨n, hn⟩ := Option.isSome_iff_exists.mp hstep
      have := relocBlocks_mono rest (relocStep (b, st) q).1 (relocStep (b, st) q).2
        q.originalIndex n hn
      rw [this]
      rfl
    · exact hb q h

theorem processTeam_placed_sub (bs : Buf × GenSt) (idx : Nat) (t : Team) (A : List Int)
    (hInv : StInv bs.2) (hPl : ∀ p ∈ bs.2.placed, p.1 ∈ A)
    (hBl : ∀ blk ∈ t.okeBlocks, blk.originalIndex ∈ A) (hA : A.dedup.length ≤ 31) :
    ∀ p ∈ (processTeam bs idx t).2.placed, p.1 ∈ A := by
  rcases processTeam_st_reloc bs idx t with he | ⟨r, b1, _, he⟩
  · rw [he]; exact hPl
  · rw [he]
    exact (relocBlocks_maps t.okeBlocks b1 bs.2 A hInv hPl hBl hA).1

theorem processTeam_maps (bs : Buf × GenSt) (idx : Nat) (t : Team) (A : List Int)
    (hInv : StInv bs.2) (hPl : ∀ p ∈ bs.2.placed, p.1 ∈ A)
    (hBl : ∀ blk ∈ t.okeBlocks, blk.originalIndex ∈ A) (hA : A.dedup.length ≤ 31)
    (hidx : idx ≤ 15)
    (hmd : t.isMatchDerived = true) (hrawS : t.rawBuffer.isSome) (hblk : t.okeBlocks ≠ []) :
    ∀ blk ∈ t.okeBlocks, ((processTeam bs idx t).2.imap blk.originalIndex).isSome := by
  obtain ⟨r, hraw⟩ := Option.isSome_iff_exists.mp hrawS
  have he := processTeam_match_eq bs idx t r hmd hraw hidx hblk
  rw [he]
  exact (relocBlocks_maps t.okeBlocks _ bs.2 A hInv hPl hBl hA).2

theorem slotsGo_maps (ts : List Team) : ∀ (bs : Buf × GenSt) (idx : Nat) (A : List Int),
    StInv bs.2 → (∀ p ∈ bs.2.placed, p.1 ∈ A) →
    (∀ t ∈ ts, ∀ blk ∈ t.okeBlocks, blk.originalIndex ∈ A) →
    A.dedup.length ≤ 31 → idx + ts.length ≤ 16 →
    ∀ t ∈ ts, t.isMatchDerived = true → t.rawBuffer.isSome → t.okeBlocks ≠ [] →
      ∀ blk ∈ t.okeBlocks, ((slotsGo bs idx ts).2.imap blk.originalIndex).isSome := by
  induction ts with
  | nil =>
    intro bs idx A _ _ _ _ _ t ht
    exact absurd ht (List.not_mem_nil t)
  | cons t0 rest ih =>
    intro bs idx A hInv hPl hBl hA hlen t ht hmd hrawS hblk blk hblkmem
    show ((slotsGo (processTeam bs idx t0) (idx + 1) rest).2.imap blk.originalIndex).isSome
    have hInv2 := processTeam_stInv bs idx t0 hInv
    have hPl2 := processTeam_placed_sub bs idx t0 A hInv hPl
      (hBl t0 (List.mem_cons_self _ _)) hA
    have hBl2 : ∀ q ∈ rest, ∀ blk ∈ q.okeBlocks, blk.originalIndex ∈ A :=
      fun q hq => hBl q (List.mem_cons_of_mem _ hq)
    rcases List.mem_cons.mp ht with h | h
    · subst h
      have hsome := processTeam_maps bs idx t A hInv hPl (hBl t (List.mem_cons_self _ _)) hA
        (by simp at hlen; omega) hmd hrawS hblk blk hblkmem
      obtain ⟨n, hn⟩ := Option.isSome_iff_exists.mp hsome
      rw [slotsGo_mono rest (processTeam bs idx t) (idx + 1) blk.originalIndex n hn]
      rfl
    · exact ih (processTeam bs idx t0) (idx + 1) A hInv2 hPl2 hBl2 hA
        (by simp at hlen; omega) t h hmd hrawS hblk blk hblkmem

/-! ## Claim C5 -/

/-- Claim C5: in every `generateMatchFile` call at most 31 blocks are
placed into the output block table; a relocation step that finds the
counter at the 31-block cap drops a not-yet-mapped block without any side
effect (no error — the step is the identity); and a per-slot
block-reference entry whose live original index is never mapped during the
call is left holding that stale original index in the output. -/
theorem c5_theorem :
    (∀ (tmpl : ByteArr) (teams : List Team) (tname : List Nat),
      (generateMatchFileCore tmpl teams tname).2.placed.length ≤ 31) ∧
    (∀ (bs : Buf × GenSt) (blk : OkeBlk), 31 ≤ bs.2.nextIdx →
      bs.2.imap blk.originalIndex = none → relocStep bs blk = bs) ∧
    (∀ (tmpl : ByteArr) (teams : List Team) (tname : List Nat)
       (pre post : List Team) (t : Team) (r : ByteArr),
      teams.take 16 = pre ++ t :: post →
      t.isMatchDerived = true → t.rawBuffer = some r →
      832 ≤ r.size → (∀ k, r.get k < 256) → t.okeBlocks ≠ [] →
      ∀ e o : Nat, e < 3 → o < 31 → rd32BA r (184 + e * 48) = o →
      (generateMatchFileCore tmpl teams tname).2.imap (o : Int) = none →
      getUint32 (generateMatchFile tmpl teams tname)
        (1160 + pre.length * 832 + 184 + e * 48) = o) := by
  refine ⟨?_, ?_, ?_⟩
  · intro tmpl teams tname
    obtain ⟨h1, h2, _, _⟩ := slotsGo_stInv (teams.take 16)
      (headerBuf tmpl teams tname, initGenSt) 0 initGenSt_stInv
    simp only [generateMatchFileCore]
    omega
  · intro bs blk h31 hnone
    simp only [relocStep]
    rw [hnone]
    rw [if_neg (by simp), if_neg (by omega)]
  · intro tmpl teams tname pre post t r hdecomp hmd hraw hsize hbytes hblk e o he ho hold hfin
    have hi : pre.length ≤ 15 := by
      have h1 : (teams.take 16).length ≤ 16 := List.length_take_le 16 teams
      rw [hdecomp] at h1
      simp at h1
      omega
    have hms := matchSlot_entry tmpl teams tname pre post t r hdecomp hmd hraw hsize hbytes
      hblk e o he ho hold _ _ rfl rfl
    cases hQ : (relocBlocks (cpy (slotsGo (headerBuf tmpl teams tname, initGenSt) 0 pre).1
        (1160 + pre.length * 832) r 0 832)
        (slotsGo (headerBuf tmpl teams tname, initGenSt) 0 pre).2 t.okeBlocks).2.imap
        (o : Int) with
    | none => exact hms.2 hQ
    | some n =>
      exfalso
      have hPe := processTeam_match_eq (slotsGo (headerBuf tmpl teams tname, initGenSt) 0 pre)
        pre.length t r hmd hraw hi hblk
      have hcore : (generateMatchFileCore tmpl teams tname).2 =
          (slotsGo (processTeam (slotsGo (headerBuf tmpl teams tname, initGenSt) 0 pre)
            pre.length t) (pre.length + 1) post).2 := by
        simp only [generateMatchFileCore]
        rw [hdecomp, slotsGo_append, Nat.zero_add]
        rfl
      have hafter : (processTeam (slotsGo (headerBuf tmpl teams tname, initGenSt) 0 pre)
          pre.length t).2.imap (o : Int) = some n := by
        rw [hPe]
        exact hQ
      have hfin2 := slotsGo_mono post _ (pre.length + 1) (o : Int) n hafter
      rw [hcore] at hfin
      rw [hfin] at hfin2
      exact Option.noConfusion hfin2

/-- Claim C5, witness: a drop step at the cap is the identity, and a slot
whose entry 0 references index 5 while only index 7 is relocated keeps the
stale index 5 in the generated file. -/
theorem c5_witness :
    (relocStep ((fun _ => 0 : Buf), (⟨31, fun _ => none, []⟩ : GenSt))
        ⟨5, ⟨0, fun _ => 0⟩⟩ =
      ((fun _ => 0 : Buf), (⟨31, fun _ => none, []⟩ : GenSt))) ∧
    getUint32 (generateMatchFile ⟨0, fun _ => 0⟩
        [⟨[65], [], [], defaultColor, some ⟨832, fun k => if k = 184 then 5 else 0⟩, true,
          [⟨7, ⟨0, fun _ => 0⟩⟩]⟩] [])
      (1160 + List.length ([] : List Team) * 832 + 184 + 0 * 48) = 5 :=
  ⟨c5_theorem.2.1 ((fun _ => 0 : Buf), (⟨31, fun _ => none, []⟩ : GenSt)) ⟨5, ⟨0, fun _ => 0⟩⟩
      (by decide) rfl,
   c5_theorem.2.2 ⟨0, fun _ => 0⟩
      [⟨[65], [], [], defaultColor, some ⟨832, fun k => if k = 184 then 5 else 0⟩, true,
        [⟨7, ⟨0, fun _ => 0⟩⟩]⟩] [] [] []
      ⟨[65], [], [], defaultColor, some ⟨832, fun k => if k = 184 then 5 else 0⟩, true,
        [⟨7, ⟨0, fun _ => 0⟩⟩]⟩
      ⟨832, fun k => if k = 184 then 5 else 0⟩
      rfl rfl rfl (by decide) (fun k => by dsimp only; split <;> omega)
      (List.cons_ne_nil _ _) 0 5 (by decide) (by decide) (by decide) (by decide)⟩

theorem mem_allBlockIdx (teams : List Team) (t : Team) (ht : t ∈ teams.take 16)
    (blk : OkeBlk) (hb : blk ∈ t.okeBlocks) : blk.originalIndex ∈ allBlockIdx teams := by
  simp only [allBlockIdx, List.mem_flatten]
  exact ⟨t.okeBlocks.map (fun b => b.originalIndex),
    List.mem_map_of_mem _ ht, List.mem_map_of_mem _ hb⟩

/-! ## Claim C2 -/

/-- Claim C2 (amended): in a `generateMatchFile` call whose selected teams
hold at most 31 distinct original block indices, when two tournament-origin
teams both reference the same original block index `o`, that index is
placed exactly once (one placement event in the whole call), and both
teams' rewritten per-slot block-reference entries that held `o` read the
same newly assigned index in the output — the relocation map and next-free
counter being shared across all teams of the call. -/
theorem c2_theorem (tmpl : ByteArr) (teams : List Team) (tname : List Nat)
    (l1 l2 l3 : List Team) (ta tb : Team) (ra rb : ByteArr)
    (hdecomp : teams.take 16 = l1 ++ ta :: (l2 ++ tb :: l3))
    (hmda : ta.isMatchDerived = true) (hrawa : ta.rawBuffer = some ra)
    (hsizea : 832 ≤ ra.size) (hbytesa : ∀ k, ra.get k < 256)
    (hmdb : tb.isMatchDerived = true) (hrawb : tb.rawBuffer = some rb)
    (hsizeb : 832 ≤ rb.size) (hbytesb : ∀ k, rb.get k < 256)
    (o : Nat) (ho : o < 31) (blkA blkB : OkeBlk)
    (hblkA : blkA ∈ ta.okeBlocks) (hblkAo : blkA.originalIndex = (o : Int))
    (hblkB : blkB ∈ tb.okeBlocks) (_hblkBo : blkB.originalIndex = (o : Int))
    (ea eb : Nat) (hea : ea < 3) (heb : eb < 3)
    (holda : rd32BA ra (184 + ea * 48) = o) (holdb : rd32BA rb (184 + eb * 48) = o)
    (hcap : (allBlockIdx teams).dedup.length ≤ 31) :
    ∃ n : Nat, n < 31 ∧
      (generateMatchFileCore tmpl teams tname).2.imap (o : Int) = some n ∧
      ((generateMatchFileCore tmpl teams tname).2.placed.map Prod.fst).count (o : Int) = 1 ∧
      getUint32 (generateMatchFile tmpl teams tname)
        (1160 + l1.length * 832 + 184 + ea * 48) = n ∧
      getUint32 (generateMatchFile tmpl teams tname)
        (1160 + (l1.length + 1 + l2.length) * 832 + 184 + eb * 48) = n := by
  have hane : ta.okeBlocks ≠ [] := by
    intro h
    rw [h] at hblkA
    exact List.not_mem_nil _ hblkA
  have hbne : tb.okeBlocks ≠ [] := by
    intro h
    rw [h] at hblkB
    exact List.not_mem_nil _ hblkB
  have hlen16 : (teams.take 16).length ≤ 16 := List.length_take_le 16 teams
  have hlens : l1.length + (l2.length + (l3.length + 1) + 1) ≤ 16 := by
    rw [hdecomp] at hlen16
    simpa using hlen16
  have hiA : l1.length ≤ 15 := by omega
  have hiB : (l1 ++ ta :: l2).length ≤ 15 := by simp; omega
  have hdecompB : teams.take 16 = (l1 ++ ta :: l2) ++ tb :: l3 := by
    rw [hdecomp]
    simp
  -- state after processing l1 and ta
  have hPTa : (processTeam (slotsGo (headerBuf tmpl teams tname, initGenSt) 0 l1)
      l1.length ta).2 =
      (relocBlocks (cpy (slotsGo (headerBuf tmpl teams tname, initGenSt) 0 l1).1
        (1160 + l1.length * 832) ra 0 832)
        (slotsGo (headerBuf tmpl teams tname, initGenSt) 0 l1).2 ta.okeBlocks).2 := by
    rw [processTeam_match_eq _ _ _ _ hmda hrawa hiA hane]
  have hS1 : (slotsGo (headerBuf tmpl teams tname, initGenSt) 0 (l1 ++ [ta])).2 =
      (relocBlocks (cpy (slotsGo (headerBuf tmpl teams tname, initGenSt) 0 l1).1
        (1160 + l1.length * 832) ra 0 832)
        (slotsGo (headerBuf tmpl teams tname, initGenSt) 0 l1).2 ta.okeBlocks).2 := by
    rw [slotsGo_append, Nat.zero_add]
    exact hPTa
  -- capacity: ta's block for o is mapped after processing l1 ++ [ta]
  have hmem1 : ∀ t ∈ l1 ++ [ta], t ∈ teams.take 16 := by
    intro t ht
    rw [hdecomp]
    rcases List.mem_append.mp ht with h | h
    · exact List.mem_append.mpr (Or.inl h)
    · rcases List.mem_singleton.mp h with rfl
      exact List.mem_append.mpr (Or.inr (List.mem_cons_self _ _))
  have hsome1 := slotsGo_maps (l1 ++ [ta]) (headerBuf tmpl teams tname, initGenSt) 0
    (allBlockIdx teams) initGenSt_stInv (by intro p hp; simp [initGenSt] at hp)
    (fun t ht blk hb => mem_allBlockIdx teams t (hmem1 t ht) blk hb) hcap
    (by simp; omega) ta (List.mem_append.mpr (Or.inr (List.mem_singleton.mpr rfl))) hmda
    (by rw [hrawa]; rfl) hane blkA hblkA
  rw [hblkAo] at hsome1
  obtain ⟨n, hQAn⟩ := Option.isSome_iff_exists.mp hsome1
  rw [hS1] at hQAn
  have hn31 : n < 31 := by
    have hB : StBound (relocBlocks (cpy (slotsGo (headerBuf tmpl teams tname, initGenSt) 0
        l1).1 (1160 + l1.length * 832) ra 0 832)
        (slotsGo (headerBuf tmpl teams tname, initGenSt) 0 l1).2 ta.okeBlocks).2 :=
      relocBlocks_stBound _ _ _ (slotsGo_stBound _ _ _ initGenSt_stBound)
    exact hB _ _ hQAn
  -- entry A in the output
  have hEA := (matchSlot_entry tmpl teams tname l1 (l2 ++ tb :: l3) ta ra hdecomp hmda hrawa
    hsizea hbytesa hane ea o hea ho holda _ _ rfl rfl).1 n hQAn
  -- state after processing (l1 ++ ta :: l2) ++ [tb]
  have hPTb : (processTeam (slotsGo (headerBuf tmpl teams tname, initGenSt) 0 (l1 ++ ta :: l2))
      (l1 ++ ta :: l2).length tb).2 =
      (relocBlocks (cpy (slotsGo (headerBuf tmpl teams tname, initGenSt) 0 (l1 ++ ta :: l2)).1
        (1160 + (l1 ++ ta :: l2).length * 832) rb 0 832)
        (slotsGo (headerBuf tmpl teams tname, initGenSt) 0 (l1 ++ ta :: l2)).2 tb.okeBlocks).2 := by
    rw [processTeam_match_eq _ _ _ _ hmdb hrawb hiB hbne]
  have hsplit : l1 ++ ta :: l2 = (l1 ++ [ta]) ++ l2 := by simp
  have hQBn : (relocBlocks (cpy (slotsGo (headerBuf tmpl teams tname, initGenSt) 0
      (l1 ++ ta :: l2)).1 (1160 + (l1 ++ ta :: l2).length * 832) rb 0 832)
      (slotsGo (headerBuf tmpl teams tname, initGenSt) 0 (l1 ++ ta :: l2)).2
      tb.okeBlocks).2.imap (o : Int) = some n := by
    apply relocBlocks_mono
    show (slotsGo (headerBuf tmpl teams tname, initGenSt) 0 (l1 ++ ta :: l2)).2.imap
      (o : Int) = some n
    rw [hsplit, slotsGo_append, Nat.zero_add]
    apply slotsGo_mono
    rw [hS1]
    exact hQAn
  have hEB := (matchSlot_entry tmpl teams tname (l1 ++ ta :: l2) l3 tb rb hdecompB hmdb hrawb
    hsizeb hbytesb hbne eb o heb ho holdb _ _ rfl rfl).1 n hQBn
  have hlenB : (l1 ++ ta :: l2).length = l1.length + 1 + l2.length := by simp; omega
  rw [hlenB] at hEB
  -- final state
  have hfin : (generateMatchFileCore tmpl teams tname).2.imap (o : Int) = some n := by
    simp only [generateMatchFileCore]
    show (slotsGo (headerBuf tmpl teams tname, initGenSt) 0 (teams.take 16)).2.imap
      (o : Int) = some n
    rw [hdecompB, slotsGo_append, Nat.zero_add]
    show (slotsGo (processTeam _ _ tb) _ l3).2.imap (o : Int) = some n
    apply slotsGo_mono
    rw [hPTb]
    exact hQBn
  have hInvF := slotsGo_stInv (teams.take 16) (headerBuf tmpl teams tname, initGenSt) 0
    initGenSt_stInv
  obtain ⟨_, _, hnodup, hiff⟩ := hInvF
  have hmemF : (o : Int) ∈ ((generateMatchFileCore tmpl teams tname).2.placed.map Prod.fst) := by
    apply (hiff (o : Int)).mp
    have : (generateMatchFileCore tmpl teams tname).2.imap (o : Int) = some n := hfin
    simp only [generateMatchFileCore] at this ⊢
    rw [this]
    rfl
  have hcount : ((generateMatchFileCore tmpl teams tname).2.placed.map Prod.fst).count
      (o : Int) = 1 := by
    apply List.count_eq_one_of_mem
    · simpa only [generateMatchFileCore] using hnodup
    · exact hmemF
  exact ⟨n, hn31, hfin, hcount, hEA, hEB⟩

/-- Claim C2, counterexample: when earlier teams exhaust the 31-block
capacity, a block index shared by two later tournament-origin teams is
placed ZERO times (no placement event carries index 40), not exactly once —
the claim fails without a capacity proviso. -/
theorem c2_counterexample :
    ((generateMatchFileCore ⟨0, fun _ => 0⟩ teamsX []).2.placed.map Prod.fst).count
        (40 : Int) = 0 ∧
    (teamsX.get? 11).map (fun t => t.okeBlocks.map (fun b => b.originalIndex)) =
      some [40] ∧
    (teamsX.get? 12).map (fun t => t.okeBlocks.map (fun b => b.originalIndex)) =
      some [40] ∧
    (generateMatchFileCore ⟨0, fun _ => 0⟩ teamsX []).2.placed.length = 31 := by
  refine ⟨by decide, by decide, by decide, by decide⟩

/-- Claim C2, witness: two teams sharing block index 3. -/
theorem c2_witness :
    ∃ n : Nat, n < 31 ∧
      (generateMatchFileCore ⟨0, fun _ => 0⟩
          [⟨[65], [], [], defaultColor, some ⟨832, fun k => if k = 184 then 3 else 0⟩, true,
            [blkD 3]⟩,
           ⟨[66], [], [], defaultColor, some ⟨832, fun k => if k = 184 then 3 else 0⟩, true,
            [blkD 3]⟩] []).2.imap ((3 : Nat) : Int) = some n ∧
      ((generateMatchFileCore ⟨0, fun _ => 0⟩
          [⟨[65], [], [], defaultColor, some ⟨832, fun k => if k = 184 then 3 else 0⟩, true,
            [blkD 3]⟩,
           ⟨[66], [], [], defaultColor, some ⟨832, fun k => if k = 184 then 3 else 0⟩, true,
            [blkD 3]⟩] []).2.placed.map Prod.fst).count ((3 : Nat) : Int) = 1 ∧
      getUint32 (generateMatchFile ⟨0, fun _ => 0⟩
          [⟨[65], [], [], defaultColor, some ⟨832, fun k => if k = 184 then 3 else 0⟩, true,
            [blkD 3]⟩,
           ⟨[66], [], [], defaultColor, some ⟨832, fun k => if k = 184 then 3 else 0⟩, true,
            [blkD 3]⟩] [])
        (1160 + List.length ([] : List Team) * 832 + 184 + 0 * 48) = n ∧
      getUint32 (generateMatchFile ⟨0, fun _ => 0⟩
          [⟨[65], [], [], defaultColor, some ⟨832, fun k => if k = 184 then 3 else 0⟩, true,
            [blkD 3]⟩,
           ⟨[66], [], [], defaultColor, some ⟨832, fun k => if k = 184 then 3 else 0⟩, true,
            [blkD 3]⟩] [])
        (1160 + (List.length ([] : List Team) + 1 + List.length ([] : List Team)) * 832 +
          184 + 0 * 48) = n :=
  c2_theorem ⟨0, fun _ => 0⟩
    [⟨[65], [], [], defaultColor, some ⟨832, fun k => if k = 184 then 3 else 0⟩, true,
      [blkD 3]⟩,
     ⟨[66], [], [], defaultColor, some ⟨832, fun k => if k = 184 then 3 else 0⟩, true,
      [blkD 3]⟩] [] [] [] []
    ⟨[65], [], [], defaultColor, some ⟨832, fun k => if k = 184 then 3 else 0⟩, true,
      [blkD 3]⟩
    ⟨[66], [], [], defaultColor, some ⟨832, fun k => if k = 184 then 3 else 0⟩, true,
      [blkD 3]⟩
    ⟨832, fun k => if k = 184 then 3 else 0⟩ ⟨832, fun k => if k = 184 then 3 else 0⟩
    rfl rfl rfl (by decide) (fun k => by dsimp only; split <;> omega)
    rfl rfl (by decide) (fun k => by dsimp only; split <;> omega)
    3 (by decide) (blkD 3) (blkD 3) (List.mem_singleton.mpr rfl) rfl
    (List.mem_singleton.mpr rfl) rfl
    0 0 (by decide) (by decide) (by decide) (by decide) (by decide)

/-! ## Claim C7 -/

theorem okeInitEntry_values (b : Buf) (slot n : Nat) (cur : Nat)
    (hcur : getUint32 b (slot + 184 + n * 48) = cur) :
    ((cur = 0xFFFFFFFF ∨ cur = 0xCDCDCDCD) →
      getUint32 (okeInitEntry b slot n) (slot + 184 + n * 48) = baseOkeIndices.getD n 0 ∧
      (∀ j, j < 4 → okeInitEntry b slot n (slot + 184 + n * 48 + (4 + j)) =
        okeMagic.getD j 0) ∧
      (∀ j, j < 4 → okeInitEntry b slot n (slot + 184 + n * 48 + (8 + j)) =
        okeFlag.getD j 0) ∧
      (∀ j, 12 ≤ j → j < 48 → okeInitEntry b slot n (slot + 184 + n * 48 + j) = 0)) ∧
    (¬(cur = 0xFFFFFFFF ∨ cur = 0xCDCDCDCD) → okeInitEntry b slot n = b) := by
  have hidxlt : baseOkeIndices.getD n 0 < 4294967296 := by
    rcases n with _ | _ | _ | m
    · decide
    · decide
    · decide
    · simp [baseOkeIndices]
  constructor
  · intro hc
    have hbranch : okeInitEntry b slot n =
        zeroRange (writeList (writeList (wr32 b (slot + 184 + n * 48)
          (baseOkeIndices.getD n 0)) (slot + 184 + n * 48 + 4) okeMagic)
          (slot + 184 + n * 48 + 8) okeFlag) (slot + 184 + n * 48 + 12) 36 := by
      simp only [okeInitEntry]
      rw [hcur, if_pos hc]
    rw [hbranch]
    refine ⟨?_, ?_, ?_, ?_⟩
    · have hb : ∀ k, k < 4 →
          (zeroRange (writeList (writeList (wr32 b (slot + 184 + n * 48)
            (baseOkeIndices.getD n 0)) (slot + 184 + n * 48 + 4) okeMagic)
            (slot + 184 + n * 48 + 8) okeFlag) (slot + 184 + n * 48 + 12) 36)
            (slot + 184 + n * 48 + k) =
          wr32 b (slot + 184 + n * 48) (baseOkeIndices.getD n 0) (slot + 184 + n * 48 + k) := by
        intro k hk
        rw [zeroRange_out _ _ _ _ (by omega),
          writeList_out _ _ _ _ (by simp [okeFlag]; omega),
          writeList_out _ _ _ _ (by simp [okeMagic]; omega)]
      rw [getUint32_congr _ _ _ hb, getUint32_wr32 _ _ _ hidxlt]
    · intro j hj
      rw [zeroRange_out _ _ _ _ (by omega),
        writeList_out _ _ _ _ (by simp [okeFlag]; omega)]
      have hx : slot + 184 + n * 48 + (4 + j) = (slot + 184 + n * 48 + 4) + j := by omega
      rw [hx, writeList_at _ _ _ _ (by simp [okeMagic]; omega)]
      interval_cases j <;> rfl
    · intro j hj
      rw [zeroRange_out _ _ _ _ (by omega)]
      have hx : slot + 184 + n * 48 + (8 + j) = (slot + 184 + n * 48 + 8) + j := by omega
      rw [hx, writeList_at _ _ _ _ (by simp [okeFlag]; omega)]
      interval_cases j <;> rfl
    · intro j hj1 hj2
      have hx : slot + 184 + n * 48 + j = (slot + 184 + n * 48 + 12) + (j - 12) := by omega
      rw [hx, zeroRange_at _ _ _ _ (by omega)]
  · intro hc
    simp only [okeInitEntry]
    rw [hcur, if_neg hc]

theorem okeInit_values (b : Buf) (slot e : Nat) (he : e < 3) (cur : Nat)
    (hcur : getUint32 b (slot + 184 + e * 48) = cur) :
    ((cur = 0xFFFFFFFF ∨ cur = 0xCDCDCDCD) →
      getUint32 (okeInit b slot) (slot + 184 + e * 48) = baseOkeIndices.getD e 0 ∧
      (∀ j, j < 4 → okeInit b slot (slot + 184 + e * 48 + (4 + j)) = okeMagic.getD j 0) ∧
      (∀ j, j < 4 → okeInit b slot (slot + 184 + e * 48 + (8 + j)) = okeFlag.getD j 0) ∧
      (∀ j, 12 ≤ j → j < 48 → okeInit b slot (slot + 184 + e * 48 + j) = 0)) ∧
    (¬(cur = 0xFFFFFFFF ∨ cur = 0xCDCDCDCD) →
      ∀ j, j < 48 → okeInit b slot (slot + 184 + e * 48 + j) = b (slot + 184 + e * 48 + j)) := by
  unfold okeInit
  interval_cases e
  · have hev := okeInitEntry_values b slot 0 cur hcur
    constructor
    · intro hc
      obtain ⟨h1, h2, h3, h4⟩ := hev.1 hc
      refine ⟨?_, ?_, ?_, ?_⟩
      · rw [getUint32_congr _ (okeInitEntry b slot 0) _ (fun k hk => by
          rw [okeInitEntry_out _ _ 2 _ (by omega), okeInitEntry_out _ _ 1 _ (by omega)])]
        exact h1
      · intro j hj
        rw [okeInitEntry_out _ _ 2 _ (by omega), okeInitEntry_out _ _ 1 _ (by omega)]
        exact h2 j hj
      · intro j hj
        rw [okeInitEntry_out _ _ 2 _ (by omega), okeInitEntry_out _ _ 1 _ (by omega)]
        exact h3 j hj
      · intro j hj1 hj2
        rw [okeInitEntry_out _ _ 2 _ (by omega), okeInitEntry_out _ _ 1 _ (by omega)]
        exact h4 j hj1 hj2
    · intro hc j hj
      rw [okeInitEntry_out _ _ 2 _ (by omega), okeInitEntry_out _ _ 1 _ (by omega),
        hev.2 hc]
  · have hread : getUint32 (okeInitEntry b slot 0) (slot + 184 + 1 * 48) = cur := by
      rw [getUint32_congr _ b _ (fun k hk => by
        rw [okeInitEntry_out _ _ 0 _ (by omega)])]
      exact hcur
    have hev := okeInitEntry_values (okeInitEntry b slot 0) slot 1 cur hread
    constructor
    · intro hc
      obtain ⟨h1, h2, h3, h4⟩ := hev.1 hc
      refine ⟨?_, ?_, ?_, ?_⟩
      · rw [getUint32_congr _ (okeInitEntry (okeInitEntry b slot 0) slot 1) _ (fun k hk => by
          rw [okeInitEntry_out _ _ 2 _ (by omega)])]
        exact h1
      · intro j hj
        rw [okeInitEntry_out _ _ 2 _ (by omega)]
        exact h2 j hj
      · intro j hj
        rw [okeInitEntry_out _ _ 2 _ (by omega)]
        exact h3 j hj
      · intro j hj1 hj2
        rw [okeInitEntry_out _ _ 2 _ (by omega)]
        exact h4 j hj1 hj2
    · intro hc j hj
      rw [okeInitEntry_out _ _ 2 _ (by omega), hev.2 hc,
        okeInitEntry_out _ _ 0 _ (by omega)]
  · have hread : getUint32 (okeInitEntry (okeInitEntry b slot 0) slot 1)
        (slot + 184 + 2 * 48) = cur := by
      rw [getUint32_congr _ b _ (fun k hk => by
        rw [okeInitEntry_out _ _ 1 _ (by omega), okeInitEntry_out _ _ 0 _ (by omega)])]
      exact hcur
    have hev := okeInitEntry_values (okeInitEntry (okeInitEntry b slot 0) slot 1) slot 2
      cur hread
    constructor
    · intro hc
      exact hev.1 hc
    · intro hc j hj
      rw [hev.2 hc, okeInitEntry_out _ _ 1 _ (by omega), okeInitEntry_out _ _ 0 _ (by omega)]

/-- Claim C7 (amended): for a team-file-origin team, each of the three
block-reference entries is inspected via its current 4-byte index from the
template: exactly when that index reads `0xFFFFFFFF` or `0xCDCDCDCD`, the
entry is rewritten to the fixed default block index for its position with
the 4-byte type tag and 4-byte active flag stamped to the known constants
and the remaining statistics bytes zero-filled; every other entry —
including one with a valid index but non-matching tag/flag bytes — is left
entirely untouched (there is no tag/flag repair path). -/
theorem c7_theorem (tmpl : ByteArr) (teams : List Team) (tname : List Nat)
    (pre post : List Team) (t : Team) (r : ByteArr)
    (hdecomp : teams.take 16 = pre ++ t :: post)
    (hmd : t.isMatchDerived = false) (hraw : t.rawBuffer = some r)
    (e : Nat) (he : e < 3) :
    ((getUint32 (baseBuf tmpl) (1160 + pre.length * 832 + 184 + e * 48) = 0xFFFFFFFF ∨
      getUint32 (baseBuf tmpl) (1160 + pre.length * 832 + 184 + e * 48) = 0xCDCDCDCD) →
      getUint32 (generateMatchFile tmpl teams tname)
        (1160 + pre.length * 832 + 184 + e * 48) = baseOkeIndices.getD e 0 ∧
      (∀ j, j < 4 → generateMatchFile tmpl teams tname
        (1160 + pre.length * 832 + 184 + e * 48 + (4 + j)) = okeMagic.getD j 0) ∧
      (∀ j, j < 4 → generateMatchFile tmpl teams tname
        (1160 + pre.length * 832 + 184 + e * 48 + (8 + j)) = okeFlag.getD j 0) ∧
      (∀ j, 12 ≤ j → j < 48 → generateMatchFile tmpl teams tname
        (1160 + pre.length * 832 + 184 + e * 48 + j) = 0)) ∧
    (¬(getUint32 (baseBuf tmpl) (1160 + pre.length * 832 + 184 + e * 48) = 0xFFFFFFFF ∨
       getUint32 (baseBuf tmpl) (1160 + pre.length * 832 + 184 + e * 48) = 0xCDCDCDCD) →
      ∀ j, j < 48 → generateMatchFile tmpl teams tname
        (1160 + pre.length * 832 + 184 + e * 48 + j) =
        baseBuf tmpl (1160 + pre.length * 832 + 184 + e * 48 + j)) := by
  have hi : pre.length ≤ 15 := by
    have h1 : (teams.take 16).length ≤ 16 := List.length_take_le 16 teams
    rw [hdecomp] at h1
    simp at h1
    omega
  have hPe := processTeam_teamfile_eq (slotsGo (headerBuf tmpl teams tname, initGenSt) 0 pre)
    pre.length t r hmd hraw hi
  have hgenx : ∀ x, 1160 + pre.length * 832 + 184 ≤ x →
      x < 1160 + pre.length * 832 + 328 →
      generateMatchFile tmpl teams tname x =
        okeInit (copyMapW (slotsGo (headerBuf tmpl teams tname, initGenSt) 0 pre).1
          (1160 + pre.length * 832) r) (1160 + pre.length * 832) x := by
    intro x hx1 hx2
    rw [gen_eq_after_team tmpl teams tname pre post t hdecomp x (by omega) (by omega) hi
      (by omega), hPe]
  have hcur : getUint32 (copyMapW (slotsGo (headerBuf tmpl teams tname, initGenSt) 0 pre).1
      (1160 + pre.length * 832) r) (1160 + pre.length * 832 + 184 + e * 48) =
      getUint32 (baseBuf tmpl) (1160 + pre.length * 832 + 184 + e * 48) := by
    apply getUint32_congr
    intro k hk
    rw [copyMapW_out _ _ _ _ (by omega),
      preBuf_eq_header tmpl teams tname pre _ (by omega) (by omega),
      headerBuf_out tmpl teams tname _ (by omega)]
  have hvals := okeInit_values (copyMapW (slotsGo (headerBuf tmpl teams tname, initGenSt) 0
    pre).1 (1160 + pre.length * 832) r) (1160 + pre.length * 832) e he _ hcur
  constructor
  · intro hc
    obtain ⟨h1, h2, h3, h4⟩ := hvals.1 hc
    refine ⟨?_, ?_, ?_, ?_⟩
    · rw [getUint32_congr _ _ _ (fun k hk => hgenx _ (by omega) (by omega))]
      exact h1
    · intro j hj
      rw [hgenx _ (by omega) (by omega)]
      exact h2 j hj
    · intro j hj
      rw [hgenx _ (by omega) (by omega)]
      exact h3 j hj
    · intro j hj1 hj2
      rw [hgenx _ (by omega) (by omega)]
      exact h4 j hj1 hj2
  · intro hc j hj
    rw [hgenx _ (by omega) (by omega), hvals.2 hc j hj,
      copyMapW_out _ _ _ _ (by omega),
      preBuf_eq_header tmpl teams tname pre _ (by omega) (by omega),
      headerBuf_out tmpl teams tname _ (by omega)]

/-- Claim C7, counterexample: a template whose slot-0 entry 0 holds the
valid index 5 but garbage tag bytes (0x11) is NOT repaired: the generated
file keeps 0x11 at the tag position instead of the constant 0xC8 claimed by
the repair clause. -/
theorem c7_counterexample :
    generateMatchFile
        ⟨266232, fun o => if o = 1344 then 5 else
          if o = 1345 ∨ o = 1346 ∨ o = 1347 then 0 else 0x11⟩
        [⟨[65], [], [], defaultColor, some ⟨688, fun _ => 1⟩, false, []⟩] [] (1344 + 4) =
      0x11 ∧ (0x11 : Nat) ≠ 0xC8 := by
  refine ⟨by decide, by decide⟩

/-- Claim C7, witness: over an all-0xCD template the three entries of a
team-file-origin team's slot are rewritten; entry 0 receives index 0, the
tag constant, the flag constant, and zeroed statistics bytes. -/
theorem c7_witness :
    getUint32 (generateMatchFile ⟨266232, fun _ => 0xCD⟩
        [⟨[65], [], [], defaultColor, some ⟨688, fun _ => 1⟩, false, []⟩] [])
      (1160 + List.length ([] : List Team) * 832 + 184 + 0 * 48) = baseOkeIndices.getD 0 0 ∧
    (∀ j, j < 4 → generateMatchFile ⟨266232, fun _ => 0xCD⟩
        [⟨[65], [], [], defaultColor, some ⟨688, fun _ => 1⟩, false, []⟩] []
        (1160 + List.length ([] : List Team) * 832 + 184 + 0 * 48 + (4 + j)) =
        okeMagic.getD j 0) ∧
    (∀ j, j < 4 → generateMatchFile ⟨266232, fun _ => 0xCD⟩
        [⟨[65], [], [], defaultColor, some ⟨688, fun _ => 1⟩, false, []⟩] []
        (1160 + List.length ([] : List Team) * 832 + 184 + 0 * 48 + (8 + j)) =
        okeFlag.getD j 0) ∧
    (∀ j, 12 ≤ j → j < 48 → generateMatchFile ⟨266232, fun _ => 0xCD⟩
        [⟨[65], [], [], defaultColor, some ⟨688, fun _ => 1⟩, false, []⟩] []
        (1160 + List.length ([] : List Team) * 832 + 184 + 0 * 48 + j) = 0) :=
  (c7_theorem ⟨266232, fun _ => 0xCD⟩
      [⟨[65], [], [], defaultColor, some ⟨688, fun _ => 1⟩, false, []⟩] [] [] []
      ⟨[65], [], [], defaultColor, some ⟨688, fun _ => 1⟩, false, []⟩
      ⟨688, fun _ => 1⟩ rfl rfl rfl 0 (by decide)).1 (by decide)

/-! ## Window invariance of the fixed-width string reader -/

theorem readSJISString_zero (b : ByteArr) (o : Nat) : readSJISString b o 0 = [] := by
  simp only [readSJISString]
  split
  · rfl
  · have he : skipPad b (o + 0) 0 o = o := rfl
    rw [if_pos (Or.inl (by rw [he]; omega))]

theorem skipPad_shift (b1 b2 : ByteArr) (o1 o2 len : Nat)
    (h1 : o1 + len ≤ b1.size) (h2 : o2 + len ≤ b2.size)
    (hag : ∀ k, k < len → b1.get (o1 + k) = b2.get (o2 + k)) :
    ∀ (f j : Nat), j ≤ len →
      ∃ k, j ≤ k ∧ k ≤ len ∧ skipPad b1 (o1 + len) f (o1 + j) = o1 + k ∧
        skipPad b2 (o2 + len) f (o2 + j) = o2 + k := by
  intro f
  induction f with
  | zero => intro j hj; exact ⟨j, le_refl j, hj, rfl, rfl⟩
  | succ f ih =>
    intro j hj
    show ∃ k, j ≤ k ∧ k ≤ len ∧
      (if o1 + j < o1 + len ∧ o1 + j < b1.size ∧
          (b1.get (o1 + j) = 0 ∨ b1.get (o1 + j) = 0xFF) then
        skipPad b1 (o1 + len) f (o1 + j + 1) else o1 + j) = o1 + k ∧
      (if o2 + j < o2 + len ∧ o2 + j < b2.size ∧
          (b2.get (o2 + j) = 0 ∨ b2.get (o2 + j) = 0xFF) then
        skipPad b2 (o2 + len) f (o2 + j + 1) else o2 + j) = o2 + k
    by_cases hjl : j < len
    · by_cases hpad : b1.get (o1 + j) = 0 ∨ b1.get (o1 + j) = 0xFF
      · have hpad2 : b2.get (o2 + j) = 0 ∨ b2.get (o2 + j) = 0xFF := by
          rw [← hag j hjl]
          exact hpad
        rw [if_pos ⟨by omega, by omega, hpad⟩, if_pos ⟨by omega, by omega, hpad2⟩]
        have e1 : o1 + j + 1 = o1 + (j + 1) := by omega
        have e2 : o2 + j + 1 = o2 + (j + 1) := by omega
        rw [e1, e2]
        obtain ⟨k, hk1, hk2, hk3, hk4⟩ := ih (j + 1) (by omega)
        exact ⟨k, by omega, hk2, hk3, hk4⟩
      · have hpad2 : ¬(b2.get (o2 + j) = 0 ∨ b2.get (o2 + j) = 0xFF) := by
          rw [← hag j hjl]
          exact hpad
        rw [if_neg (fun hc => hpad hc.2.2), if_neg (fun hc => hpad2 hc.2.2)]
        exact ⟨j, le_refl j, hj, rfl, rfl⟩
    · rw [if_neg (fun hc => absurd hc.1 (by omega)), if_neg (fun hc => absurd hc.1 (by omega))]
      exact ⟨j, le_refl j, hj, rfl, rfl⟩

theorem baToList_slice_congr (b1 b2 : ByteArr) (o1 o2 len k : Nat)
    (h1 : o1 + len ≤ b1.size) (h2 : o2 + len ≤ b2.size) (hk : k ≤ len)
    (hag : ∀ j, j < len → b1.get (o1 + j) = b2.get (o2 + j)) :
    baToList (baSlice b1 (o1 + k) (o1 + len)) = baToList (baSlice b2 (o2 + k) (o2 + len)) := by
  simp only [baToList, baSlice]
  rw [Nat.min_eq_left h1, Nat.min_eq_left (show o1 + k ≤ b1.size by omega),
    Nat.min_eq_left h2, Nat.min_eq_left (show o2 + k ≤ b2.size by omega)]
  have e1 : o1 + len - (o1 + k) = len - k := by omega
  have e2 : o2 + len - (o2 + k) = len - k := by omega
  rw [e1, e2]
  apply List.map_congr_left
  intro a ha
  rw [List.mem_range] at ha
  have ea1 : o1 + k + a = o1 + (k + a) := by omega
  have ea2 : o2 + k + a = o2 + (k + a) := by omega
  rw [ea1, ea2]
  exact hag (k + a) (by omega)

theorem readSJISString_congr (b1 b2 : ByteArr) (o1 o2 len : Nat)
    (h1 : o1 + len ≤ b1.size) (h2 : o2 + len ≤ b2.size)
    (hag : ∀ k, k < len → b1.get (o1 + k) = b2.get (o2 + k)) :
    readSJISString b1 o1 len = readSJISString b2 o2 len := by
  cases Nat.eq_zero_or_pos len with
  | inl h0 =>
    subst h0
    rw [readSJISString_zero, readSJISString_zero]
  | inr hpos =>
    obtain ⟨k, _, hkle, hs1, hs2⟩ := skipPad_shift b1 b2 o1 o2 len h1 h2 hag len 0 (by omega)
    rw [Nat.add_zero] at hs1 hs2
    simp only [readSJISString]
    rw [if_neg (show ¬ o1 ≥ b1.size by omega), if_neg (show ¬ o2 ≥ b2.size by omega),
      hs1, hs2]
    by_cases hk : len ≤ k
    · rw [if_pos (Or.inl (show o1 + k ≥ o1 + len by omega)),
        if_pos (Or.inl (show o2 + k ≥ o2 + len by omega))]
    · have hn1 : ¬(o1 + k ≥ o1 + len ∨ o1 + k ≥ b1.size) := by
        push_neg
        exact ⟨by omega, by omega⟩
      have hn2 : ¬(o2 + k ≥ o2 + len ∨ o2 + k ≥ b2.size) := by
        push_neg
        exact ⟨by omega, by omega⟩
      rw [if_neg hn1, if_neg hn2, baToList_slice_congr b1 b2 o1 o2 len k h1 h2 (by omega) hag]

/-! ## The reader's output is trim-fixed -/

theorem readSJISString_cases (b : ByteArr) (offset len : Nat) :
    readSJISString b offset len = [] ∨
    ∃ str : List Nat, 0 ∉ str ∧ readSJISString b offset len = jsTrim str := by
  simp only [readSJISString]
  split
  · left; rfl
  · split
    · left; rfl
    · split
      · left; rfl
      · right
        refine ⟨toUTF8 (baToList (baSlice b (skipPad b (offset + len) len offset)
          (offset + len))), toUTF8_no_zero _, ?_⟩
        rw [nulCut_of_no_zero]
        intro hmem
        exact toUTF8_no_zero _ (jsTrim_subset _ hmem)

theorem dropWhile_eq_self_of_head (p : Nat → Bool) (l : List Nat)
    (h : ∀ c, l.head? = some c → p c = false) : l.dropWhile p = l := by
  cases l with
  | nil => rfl
  | cons a t =>
    rw [List.dropWhile_cons, if_neg]
    rw [h a rfl]
    simp

theorem jsTrim_idem (l : List Nat) : jsTrim (jsTrim l) = jsTrim l := by
  show (((jsTrim l).dropWhile jsWsB).reverse.dropWhile jsWsB).reverse = jsTrim l
  rw [dropWhile_eq_self_of_head _ _ (fun c hc => jsTrim_head_not l c hc)]
  rw [dropWhile_eq_self_of_head _ _ (fun c hc => by
    rw [List.head?_reverse] at hc
    exact jsTrim_getLast_not l c hc)]
  rw [List.reverse_reverse]

theorem jsTrim_readSJISString (b : ByteArr) (offset len : Nat) :
    jsTrim (readSJISString b offset len) = readSJISString b offset len := by
  rcases readSJISString_cases b offset len with h | ⟨str, _, h⟩
  · rw [h]; rfl
  · rw [h, jsTrim_idem]

/-! ## Round-trip through the team-file generator -/

theorem genTeamFold_out (ts : List Team) : ∀ (p : Buf × Nat) (x : Nat), x < p.2 →
    (ts.foldl (fun (p : Buf × Nat) t =>
      match t.rawBuffer with
      | some r => (cpy p.1 p.2 r 0 r.size, p.2 + r.size)
      | none => p) p).1 x = p.1 x := by
  induction ts with
  | nil => intro p x _; rfl
  | cons t rest ih =>
    intro p x hx
    show (rest.foldl _ (match t.rawBuffer with
      | some r => (cpy p.1 p.2 r 0 r.size, p.2 + r.size)
      | none => p)).1 x = p.1 x
    cases hr : t.rawBuffer with
    | none => exact ih p x hx
    | some r =>
      rw [ih (cpy p.1 p.2 r 0 r.size, p.2 + r.size) x (by simp; omega)]
      exact cpy_out _ _ _ _ _ _ (by omega)

theorem genTeamFold_total (ts : List Team) : ∀ a : Nat,
    a ≤ ts.foldl (fun acc t =>
      acc + (match t.rawBuffer with | some r => r.size | none => 24512)) a := by
  induction ts with
  | nil => intro a; exact le_refl a
  | cons t rest ih =>
    intro a
    calc a ≤ a + (match t.rawBuffer with | some r => r.size | none => 24512) := by
          cases t.rawBuffer <;> omega
      _ ≤ _ := ih _

theorem generateTeamFile_first (t1 : Team) (rest : List Team) (r1 : ByteArr)
    (hraw : t1.rawBuffer = some r1) :
    (∀ x, x < r1.size → (generateTeamFile (t1 :: rest)).get x = r1.get x % 256) ∧
    r1.size ≤ (generateTeamFile (t1 :: rest)).size := by
  have hne : ¬ (t1 :: rest).length = 0 := by simp
  have hunfold : generateTeamFile (t1 :: rest) =
      ⟨(t1 :: rest).foldl (fun acc t =>
          acc + (match t.rawBuffer with | some r => r.size | none => 24512)) 0,
        ((t1 :: rest).foldl (fun (p : Buf × Nat) t =>
          match t.rawBuffer with
          | some r => (cpy p.1 p.2 r 0 r.size, p.2 + r.size)
          | none => p) ((fun _ => 0 : Buf), 0)).1⟩ := by
    simp only [generateTeamFile, if_neg hne]
  have hstep1 : (t1 :: rest).foldl (fun (p : Buf × Nat) t =>
      match t.rawBuffer with
      | some r => (cpy p.1 p.2 r 0 r.size, p.2 + r.size)
      | none => p) ((fun _ => 0 : Buf), 0) =
      rest.foldl (fun (p : Buf × Nat) t =>
      match t.rawBuffer with
      | some r => (cpy p.1 p.2 r 0 r.size, p.2 + r.size)
      | none => p) (cpy (fun _ => 0) 0 r1 0 r1.size, 0 + r1.size) := by
    simp only [List.foldl_cons, hraw]
  have hstep2 : (t1 :: rest).foldl (fun acc t =>
      acc + (match t.rawBuffer with | some r => r.size | none => 24512)) 0 =
      rest.foldl (fun acc t =>
      acc + (match t.rawBuffer with | some r => r.size | none => 24512)) (0 + r1.size) := by
    simp only [List.foldl_cons, hraw]
  constructor
  · intro x hx
    rw [hunfold]
    dsimp only
    rw [hstep1, genTeamFold_out rest _ x (by dsimp only; omega)]
    dsimp only
    have h2 := cpy_at r1.size (fun _ => 0) 0 r1 0 x hx (by omega)
    rw [Nat.zero_add] at h2
    exact h2
  · rw [hunfold]
    dsimp only
    rw [hstep2]
    have := genTeamFold_total rest (0 + r1.size)
    omega

theorem paletteAt_getD_one (b : ByteArr) (o : Nat) (d : Color) :
    (paletteAt b o).getD 1 d = ⟨b.get (o + 4), b.get (o + 5), b.get (o + 6), b.get (o + 7)⟩ := by
  have h : (paletteAt b o).getD 1 d = ⟨b.get (o + 4 * 1), b.get (o + 4 * 1 + 1),
      b.get (o + 4 * 1 + 2), b.get (o + 4 * 1 + 3)⟩ := rfl
  rw [h, show o + 4 * 1 = o + 4 from by omega, show o + 4 + 1 = o + 5 from by omega,
    show o + 4 + 2 = o + 6 from by omega, show o + 4 + 3 = o + 7 from by omega]

theorem teamFileRoundTrip (t1 : Team) (rest : List Team) (r1 : ByteArr)
    (hraw : t1.rawBuffer = some r1) (hsize : 688 ≤ r1.size) (hbytes : ∀ k, r1.get k < 256)
    (hname : t1.name = readSJISString r1 0x280 24) (hne : t1.name ≠ [])
    (howner : t1.owner = readSJISString r1 0x298 24)
    (hpc : t1.primaryColor = ⟨r1.get 0x244, r1.get 0x245, r1.get 0x246, r1.get 0x247⟩) :
    ∃ t' : Team, (parseTeamFile (generateTeamFile (t1 :: rest))).teams = [t'] ∧
      t'.name = t1.name ∧ t'.owner = t1.owner ∧ t'.primaryColor = t1.primaryColor := by
  obtain ⟨hval, hsz⟩ := generateTeamFile_first t1 rest r1 hraw
  have hag : ∀ x, x < 688 → (generateTeamFile (t1 :: rest)).get x = r1.get x := by
    intro x hx
    rw [hval x (by omega), Nat.mod_eq_of_lt (hbytes x)]
  have hnamec : readSJISString (generateTeamFile (t1 :: rest)) 0x280 24 =
      readSJISString r1 0x280 24 := by
    apply readSJISString_congr _ _ _ _ _ (by omega) (by omega)
    intro k hk
    exact hag (640 + k) (by omega)
  have hownerc : readSJISString (generateTeamFile (t1 :: rest)) 0x298 24 =
      readSJISString r1 0x298 24 := by
    apply readSJISString_congr _ _ _ _ _ (by omega) (by omega)
    intro k hk
    exact hag (664 + k) (by omega)
  have hcond : readSJISString (generateTeamFile (t1 :: rest)) 0x280 24 ≠ [] ∧
      jsTrim (readSJISString (generateTeamFile (t1 :: rest)) 0x280 24) ≠ [] := by
    constructor
    · rw [hnamec, ← hname]
      exact hne
    · rw [jsTrim_readSJISString, hnamec, ← hname]
      exact hne
  have hteams : (parseTeamFile (generateTeamFile (t1 :: rest))).teams =
      [{ name := readSJISString (generateTeamFile (t1 :: rest)) 0x280 24,
         owner := readSJISString (generateTeamFile (t1 :: rest)) 0x298 24,
         colors := paletteAt (generateTeamFile (t1 :: rest)) 0x240,
         primaryColor := (paletteAt (generateTeamFile (t1 :: rest)) 0x240).getD 1
           ((paletteAt (generateTeamFile (t1 :: rest)) 0x240).getD 0 defaultColor),
         rawBuffer := some (generateTeamFile (t1 :: rest)),
         isMatchDerived := false, okeBlocks := [] }] := by
    simp only [parseTeamFile]
    rw [if_pos hcond]
  refine ⟨_, hteams, ?_, ?_, ?_⟩
  · show readSJISString (generateTeamFile (t1 :: rest)) 0x280 24 = t1.name
    rw [hnamec, hname]
  · show readSJISString (generateTeamFile (t1 :: rest)) 0x298 24 = t1.owner
    rw [hownerc, howner]
  · show (paletteAt (generateTeamFile (t1 :: rest)) 0x240).getD 1
      ((paletteAt (generateTeamFile (t1 :: rest)) 0x240).getD 0 defaultColor) = t1.primaryColor
    rw [paletteAt_getD_one, hpc]
    have e4 : (0x240 : Nat) + 4 = 0x244 := by omega
    have e5 : (0x240 : Nat) + 5 = 0x245 := by omega
    have e6 : (0x240 : Nat) + 6 = 0x246 := by omega
    have e7 : (0x240 : Nat) + 7 = 0x247 := by omega
    rw [e4, e5, e6, e7, hag 0x244 (by omega), hag 0x245 (by omega), hag 0x246 (by omega),
      hag 0x247 (by omega)]

/-! ## Round-trip through the tournament generator -/

theorem matchTeams_get (b : ByteArr) : ∀ (n i p : Nat), p < n →
    1160 + (i + p) * 832 + 832 ≤ b.size →
    (matchTeams b n i)[p]? = some (matchSlotTeam b (1160 + (i + p) * 832)) := by
  intro n
  induction n with
  | zero => intro i p hp _; exact absurd hp (Nat.not_lt_zero p)
  | succ m ih =>
    intro i p hp hb
    show (if 1160 + i * 832 + 832 > b.size then ([] : List Team)
      else matchSlotTeam b (1160 + i * 832) :: matchTeams b m (i + 1))[p]? = _
    rw [if_neg (by omega)]
    cases p with
    | zero =>
      rw [List.getElem?_cons_zero, Nat.add_zero]
    | succ q =>
      rw [List.getElem?_cons_succ]
      have hres := ih (i + 1) q (by omega) (by omega)
      have he : i + 1 + q = i + (q + 1) := by omega
      rw [he] at hres
      exact hres

theorem processTeam_match_noblocks_eq (bs : Buf × GenSt) (idx : Nat) (t : Team) (r : ByteArr)
    (hmd : t.isMatchDerived = true) (hraw : t.rawBuffer = some r)
    (hidx : idx ≤ 15) (hblk : t.okeBlocks = []) :
    processTeam bs idx t = (cpy bs.1 (1160 + idx * 832) r 0 832, bs.2) := by
  simp only [processTeam, hmd, hraw]
  rw [if_neg (by omega), if_pos trivial, if_pos (by rw [hblk]; rfl)]

theorem genMatch_slot_byte (tmpl : ByteArr) (teams : List Team) (tname : List Nat)
    (pre post : List Team) (t : Team) (r : ByteArr)
    (hdecomp : teams.take 16 = pre ++ t :: post) (hi : pre.length ≤ 14)
    (hmd : t.isMatchDerived = true) (hraw : t.rawBuffer = some r) (hrs : r.size = 832)
    (k : Nat) (hk1 : 20 ≤ k) (hk2 : k < 132) :
    generateMatchFile tmpl teams tname (1160 + pre.length * 832 + k) = r.get k % 256 := by
  rw [gen_eq_after_team tmpl teams tname pre post t hdecomp (1160 + pre.length * 832 + k)
    (by omega) (by omega) (by omega) (by left; omega)]
  by_cases hblk : t.okeBlocks = []
  · rw [processTeam_match_noblocks_eq _ _ _ _ hmd hraw (by omega) hblk]
    dsimp only
    have hc := cpy_at 832 (slotsGo (headerBuf tmpl teams tname, initGenSt) 0 pre).1
      (1160 + pre.length * 832) r 0 k (by omega) (by omega)
    rw [Nat.zero_add] at hc
    exact hc
  · rw [processTeam_match_eq _ _ _ _ hmd hraw (by omega) hblk]
    dsimp only
    rw [rewriteRefs_out _ _ _ _ (by omega), relocBlocks_buf_out _ _ _ _ (by omega)]
    have hc := cpy_at 832 (slotsGo (headerBuf tmpl teams tname, initGenSt) 0 pre).1
      (1160 + pre.length * 832) r 0 k (by omega) (by omega)
    rw [Nat.zero_add] at hc
    exact hc

theorem genMatch_teamCount (tmpl : ByteArr) (teams : List Team) (tname : List Nat) :
    readUint32 ⟨266232, generateMatchFile tmpl teams tname⟩ 0x34 =
      ((min teams.length 16 : Nat) : Int) := by
  have hbyte : ∀ k, k < 4 → generateMatchFile tmpl teams tname (52 + k) =
      min teams.length 16 / 256 ^ k % 256 := by
    intro k hk
    simp only [generateMatchFile, generateMatchFileCore]
    rw [resultsPhase_out _ _ (by omega), slotsGo_buf_low _ _ _ _ (by omega)]
    simp only [headerBuf]
    rw [wr32_out _ _ _ _ (by omega), wr32_out _ _ _ _ (by omega),
      wr32_out _ _ _ _ (by omega), wr32_byte _ _ _ _ hk]
  have h0 := hbyte 0 (by omega)
  have h1 := hbyte 1 (by omega)
  have h2 := hbyte 2 (by omega)
  have h3 := hbyte 3 (by omega)
  rw [Nat.add_zero] at h0
  have hlt : min teams.length 16 < 256 := by omega
  rw [pow_zero, Nat.div_one, Nat.mod_eq_of_lt hlt] at h0
  rw [pow_one, Nat.div_eq_of_lt hlt, Nat.zero_mod] at h1
  rw [Nat.div_eq_of_lt (by omega), Nat.zero_mod] at h2
  rw [Nat.div_eq_of_lt (by omega), Nat.zero_mod] at h3
  show (if (52 : Nat) + 4 > (266232 : Nat) then (0 : Int) else _) = _
  rw [if_neg (by omega)]
  dsimp only
  rw [h0, h1, h2, h3, Nat.mod_eq_of_lt hlt]
  norm_num

theorem matchRoundTrip (tmpl : ByteArr) (teams : List Team) (tname : List Nat)
    (pre post : List Team) (t : Team) (r : ByteArr)
    (hdecomp : teams.take 16 = pre ++ t :: post) (hi : pre.length ≤ 14)
    (hmd : t.isMatchDerived = true) (hraw : t.rawBuffer = some r) (hrs : r.size = 832)
    (hbytes : ∀ k, r.get k < 256)
    (hname : t.name = readSJISString r 0x54 26)
    (howner : t.owner = readSJISString r 0x6C 24)
    (hpc : t.primaryColor = ⟨r.get 0x18, r.get 0x19, r.get 0x1A, r.get 0x1B⟩) :
    ∃ t' : Team,
      (parseMatchFile ⟨266232, generateMatchFile tmpl teams tname⟩).teams[pre.length]? =
        some t' ∧
      t'.name = t.name ∧ t'.owner = t.owner ∧ t'.primaryColor = t.primaryColor := by
  have hlen : pre.length < min teams.length 16 := by
    have h1 : (teams.take 16).length = min 16 teams.length := List.length_take _ _
    rw [hdecomp] at h1
    simp only [List.length_append, List.length_cons] at h1
    omega
  have hagB : ∀ k, 20 ≤ k → k < 132 →
      (⟨266232, generateMatchFile tmpl teams tname⟩ : ByteArr).get
        (1160 + pre.length * 832 + k) = r.get k := by
    intro k h1 h2
    show generateMatchFile tmpl teams tname (1160 + pre.length * 832 + k) = r.get k
    rw [genMatch_slot_byte tmpl teams tname pre post t r hdecomp hi hmd hraw hrs k h1 h2,
      Nat.mod_eq_of_lt (hbytes k)]
  have hteams : (parseMatchFile ⟨266232, generateMatchFile tmpl teams tname⟩).teams =
      matchTeams ⟨266232, generateMatchFile tmpl teams tname⟩ (min teams.length 16) 0 := by
    show matchTeams _ (readUint32 ⟨266232, generateMatchFile tmpl teams tname⟩ 0x34).toNat 0 = _
    rw [genMatch_teamCount tmpl teams tname]
    congr 1
  have hget := matchTeams_get ⟨266232, generateMatchFile tmpl teams tname⟩
    (min teams.length 16) 0 pre.length hlen (by dsimp only; omega)
  rw [Nat.zero_add] at hget
  rw [hteams]
  refine ⟨_, hget, ?_, ?_, ?_⟩
  · show readSJISString (⟨266232, generateMatchFile tmpl teams tname⟩ : ByteArr)
      (1160 + pre.length * 832 + 0x54) 26 = t.name
    rw [hname]
    apply readSJISString_congr _ _ _ _ _ (by dsimp only; omega) (by omega)
    intro k hk
    rw [show 1160 + pre.length * 832 + 0x54 + k = 1160 + pre.length * 832 + (84 + k)
      from by omega, show (0x54 : Nat) + k = 84 + k from rfl]
    exact hagB (84 + k) (by omega) (by omega)
  · show readSJISString (⟨266232, generateMatchFile tmpl teams tname⟩ : ByteArr)
      (1160 + pre.length * 832 + 0x6C) 24 = t.owner
    rw [howner]
    apply readSJISString_congr _ _ _ _ _ (by dsimp only; omega) (by omega)
    intro k hk
    rw [show 1160 + pre.length * 832 + 0x6C + k = 1160 + pre.length * 832 + (108 + k)
      from by omega, show (0x6C : Nat) + k = 108 + k from rfl]
    exact hagB (108 + k) (by omega) (by omega)
  · show (paletteAt (⟨266232, generateMatchFile tmpl teams tname⟩ : ByteArr)
        (1160 + pre.length * 832 + 0x14)).getD 1
      ((paletteAt (⟨266232, generateMatchFile tmpl teams tname⟩ : ByteArr)
        (1160 + pre.length * 832 + 0x14)).getD 0 defaultColor) = t.primaryColor
    rw [paletteAt_getD_one, hpc]
    rw [show 1160 + pre.length * 832 + 0x14 + 4 = 1160 + pre.length * 832 + 24 from by omega,
      show 1160 + pre.length * 832 + 0x14 + 5 = 1160 + pre.length * 832 + 25 from by omega,
      show 1160 + pre.length * 832 + 0x14 + 6 = 1160 + pre.length * 832 + 26 from by omega,
      show 1160 + pre.length * 832 + 0x14 + 7 = 1160 + pre.length * 832 + 27 from by omega,
      hagB 24 (by omega) (by omega), hagB 25 (by omega) (by omega),
      hagB 26 (by omega) (by omega), hagB 27 (by omega) (by omega)]

/-- Claim C3: parsing the generated buffer reproduces a team's name, owner
and primary color when the team's origin format matches the generated
format. Team-file path: for the first team of a `generateTeamFile` call
whose fields agree with its raw fragment (nonempty name), `parseTeamFile`
of the output returns exactly one team with the same name, owner and
primary color. Tournament path: for a tournament-origin team placed in any
of slots 0–14 of a `generateMatchFile` call whose fields agree with its
832-byte raw slot, `parseMatchFile` of the output yields at that slot
position a team with the same name, owner and primary color. -/
theorem c3_theorem :
    (∀ (t1 : Team) (rest : List Team) (r1 : ByteArr),
      t1.rawBuffer = some r1 → 688 ≤ r1.size → (∀ k, r1.get k < 256) →
      t1.name = readSJISString r1 0x280 24 → t1.name ≠ [] →
      t1.owner = readSJISString r1 0x298 24 →
      t1.primaryColor = ⟨r1.get 0x244, r1.get 0x245, r1.get 0x246, r1.get 0x247⟩ →
      ∃ t' : Team, (parseTeamFile (generateTeamFile (t1 :: rest))).teams = [t'] ∧
        t'.name = t1.name ∧ t'.owner = t1.owner ∧ t'.primaryColor = t1.primaryColor) ∧
    (∀ (tmpl : ByteArr) (teams : List Team) (tname : List Nat) (pre post : List Team)
      (t : Team) (r : ByteArr),
      teams.take 16 = pre ++ t :: post → pre.length ≤ 14 →
      t.isMatchDerived = true → t.rawBuffer = some r → r.size = 832 →
      (∀ k, r.get k < 256) →
      t.name = readSJISString r 0x54 26 → t.owner = readSJISString r 0x6C 24 →
      t.primaryColor = ⟨r.get 0x18, r.get 0x19, r.get 0x1A, r.get 0x1B⟩ →
      ∃ t' : Team,
        (parseMatchFile ⟨266232, generateMatchFile tmpl teams tname⟩).teams[pre.length]? =
          some t' ∧
        t'.name = t.name ∧ t'.owner = t.owner ∧ t'.primaryColor = t.primaryColor) :=
  ⟨fun t1 rest r1 h1 h2 h3 h4 h5 h6 h7 => teamFileRoundTrip t1 rest r1 h1 h2 h3 h4 h5 h6 h7,
   fun tmpl teams tname pre post t r h1 h2 h3 h4 h5 h6 h7 h8 h9 =>
     matchRoundTrip tmpl teams tname pre post t r h1 h2 h3 h4 h5 h6 h7 h8 h9⟩

/-- Claim C3, witness: a concrete one-team round trip on each path. -/
theorem c3_witness :
    (∃ t' : Team, (parseTeamFile (generateTeamFile [mkTC3 65])).teams = [t'] ∧
      t'.name = (mkTC3 65).name ∧ t'.owner = (mkTC3 65).owner ∧
      t'.primaryColor = (mkTC3 65).primaryColor) ∧
    (∃ t' : Team,
      (parseMatchFile ⟨266232, generateMatchFile ⟨0, fun _ => 0⟩ [tMC3] []⟩).teams[0]? =
        some t' ∧
      t'.name = tMC3.name ∧ t'.owner = tMC3.owner ∧ t'.primaryColor = tMC3.primaryColor) :=
  ⟨c3_theorem.1 (mkTC3 65) [] (rawC3 65) rfl (by decide)
      (by intro k; show (if k = 640 then (65 : Nat) else 0) < 256; split <;> omega)
      (by decide) (by decide) (by decide) (by decide),
   c3_theorem.2 ⟨0, fun _ => 0⟩ [tMC3] [] [] [] tMC3 rawMC3 rfl (by decide) rfl rfl rfl
      (by intro k; show (if k = 84 then (77 : Nat) else 0) < 256; split <;> omega)
      (by decide) (by decide) (by decide)⟩

/-- Claim C3, counterexample: the round trip does not extend to every team
of a `generateTeamFile` call. Both teams are team-file-origin teams whose
fields agree with their raw fragments, yet parsing the generated file
yields only the first team; the second team's name is not reproduced
anywhere in the parse result. -/
theorem c3_counterexample :
    (parseTeamFile (generateTeamFile [mkTC3 65, mkTC3 66])).teams.map Team.name = [[65]] ∧
    [66] ∉ (parseTeamFile (generateTeamFile [mkTC3 65, mkTC3 66])).teams.map Team.name := by
  decide
